import Mathlib

/-!
# Seven-channel 555-timer sequencer (`src/main.cpp`)

A shallow embedding of the Arduino sketch: the global variables become one
`State` record, every function of the sketch becomes a pure function on that
record, and the hardware reads (`millis()`, `digitalRead`) become explicit
arguments.  A `for` loop over the seven indices is a left fold of its body over
`indices`.  `Serial` output (and with it `printFinalResults` and
`getOrdinalSuffix`) only reports values and is not part of the state; the level
written to each LED pin by `digitalWrite` is.

Machine integers: `unsigned long` is 32 bits wide on the ATmega2560; its values
are natural numbers and the one operation that can wrap, subtraction, is
`sub32`.  The `int` variables hold pin numbers (22..36), zero, or a counter
between 0 and 7, so they never wrap.
-/

namespace Sequencer

/-- `const int NUM_TIMERS = 7;` -/
abbrev NUM_TIMERS : Nat := 7

/-- `const int BUTTON_PIN = 29;` -/
def BUTTON_PIN : Int := 29

/-- `const int TIMER_PINS[NUM_TIMERS] = {22, 23, 24, 25, 26, 27, 28};` -/
def TIMER_PINS (i : Fin NUM_TIMERS) : Int :=
  match i with
  | 0 => 22
  | 1 => 23
  | 2 => 24
  | 3 => 25
  | 4 => 26
  | 5 => 27
  | 6 => 28

/-- `const int LED_PINS[NUM_TIMERS] = {30, 31, 32, 33, 34, 35, 36};` -/
def LED_PINS (i : Fin NUM_TIMERS) : Int :=
  match i with
  | 0 => 30
  | 1 => 31
  | 2 => 32
  | 3 => 33
  | 4 => 34
  | 5 => 35
  | 6 => 36

/-- Logic level `HIGH` of `digitalRead` / `digitalWrite`. -/
abbrev HIGH : Bool := true

/-- Logic level `LOW` of `digitalRead` / `digitalWrite`. -/
abbrev LOW : Bool := false

/-- Number of values of an `unsigned long` (32 bits on the ATmega2560). -/
abbrev U32 : Nat := 4294967296

/-- Subtraction of two `unsigned long` values, `a - b` in C: modulo `2^32`. -/
def sub32 (a b : Nat) : Nat := (a + U32 - b % U32) % U32

/-- The global variables of the sketch, plus the level last written to each LED
pin by `digitalWrite` (`ledPinLevel`, indexed like `LED_PINS`).  Arrays of
`NUM_TIMERS` elements are functions on `Fin NUM_TIMERS`. -/
structure State where
  sequenceIsActive : Bool
  sequenceStartTime : Nat
  timerHighStartTimes : Fin NUM_TIMERS → Nat
  timerOnDurations : Fin NUM_TIMERS → Nat
  currentTimerState : Fin NUM_TIMERS → Bool
  highSignalOrder : Fin NUM_TIMERS → Int
  highTimersCount : Nat
  ledLastToggleTimes : Fin NUM_TIMERS → Nat
  ledStates : Fin NUM_TIMERS → Bool
  ledPinLevel : Fin NUM_TIMERS → Bool

/-- The state after the global initialisers and `setup()`: everything zero or
false, every LED pin driven `LOW`. -/
def boot : State where
  sequenceIsActive := false
  sequenceStartTime := 0
  timerHighStartTimes := fun _ => 0
  timerOnDurations := fun _ => 0
  currentTimerState := fun _ => false
  highSignalOrder := fun _ => 0
  highTimersCount := 0
  ledLastToggleTimes := fun _ => 0
  ledStates := fun _ => false
  ledPinLevel := fun _ => LOW

/-- The index values of `for (int i = 0; i < NUM_TIMERS; i++)`, in order. -/
def indices : List (Fin NUM_TIMERS) := List.finRange NUM_TIMERS

/-- Body of the loop of `startNewSequence` for index `i`. -/
def resetChannel (s : State) (i : Fin NUM_TIMERS) : State :=
  { s with
    timerHighStartTimes := Function.update s.timerHighStartTimes i 0
    timerOnDurations := Function.update s.timerOnDurations i 0
    currentTimerState := Function.update s.currentTimerState i false
    highSignalOrder := Function.update s.highSignalOrder i 0
    ledStates := Function.update s.ledStates i false
    ledLastToggleTimes := Function.update s.ledLastToggleTimes i 0
    ledPinLevel := Function.update s.ledPinLevel i LOW }

/-- `void startNewSequence()`; `now` is the value returned by `millis()`. -/
def startNewSequence (now : Nat) (s : State) : State :=
  let s1 := { s with sequenceIsActive := true, sequenceStartTime := now, highTimersCount := 0 }
  indices.foldl resetChannel s1

/-- Body of the first loop of `monitorTimerPins` for channel `i`; `rd` is
`digitalRead` (pin number to level) and `currentTime` the value of `millis()`
read at the start of the call. -/
def monitorChannel (rd : Int → Bool) (currentTime : Nat) (s : State) (i : Fin NUM_TIMERS) :
    State :=
  let pin := TIMER_PINS i
  let isPinHigh := rd pin == HIGH
  if isPinHigh && !s.currentTimerState i then
    let s1 := { s with
      currentTimerState := Function.update s.currentTimerState i true
      timerHighStartTimes := Function.update s.timerHighStartTimes i currentTime }
    if h : s1.highTimersCount < NUM_TIMERS then
      { s1 with
        highSignalOrder := Function.update s1.highSignalOrder ⟨s1.highTimersCount, h⟩ pin
        highTimersCount := s1.highTimersCount + 1 }
    else s1
  else if !isPinHigh && s.currentTimerState i then
    { s with
      currentTimerState := Function.update s.currentTimerState i false
      timerOnDurations :=
        Function.update s.timerOnDurations i (sub32 currentTime (s.timerHighStartTimes i)) }
  else s

/-- The second loop of `monitorTimerPins`: `allTimersFinished` stays `true`
exactly when no index has `timerOnDurations[i] == 0` (the loop stops at the
first such index). -/
def allTimersFinished (s : State) : Bool :=
  indices.all fun i => !(s.timerOnDurations i == 0)

/-- `void monitorTimerPins()`. -/
def monitorTimerPins (rd : Int → Bool) (currentTime : Nat) (s : State) : State :=
  let s1 := indices.foldl (monitorChannel rd currentTime) s
  if s1.highTimersCount == NUM_TIMERS && allTimersFinished s1 then
    { s1 with sequenceIsActive := false }
  else s1

/-- The inner loop of `blinkLedsAsynchronously` (and of `printFinalResults`):
the duration of the first channel `j` with `TIMER_PINS[j] == orderedPin`, and
`0` when the search finds none. -/
def lookupDuration (s : State) (orderedPin : Int) : Nat :=
  match indices.find? (fun j => TIMER_PINS j == orderedPin) with
  | some j => s.timerOnDurations j
  | none => 0

/-- The value of `blinkDuration` that `blinkLedsAsynchronously` computes for
output slot `i`. -/
def blinkDuration (s : State) (i : Fin NUM_TIMERS) : Nat :=
  lookupDuration s (s.highSignalOrder i)

/-- Body of the outer loop of `blinkLedsAsynchronously` for slot `i`. -/
def blinkSlot (currentTime : Nat) (s : State) (i : Fin NUM_TIMERS) : State :=
  let d := blinkDuration s i
  if d == 0 then s
  else if sub32 currentTime (s.ledLastToggleTimes i) ≥ d then
    { s with
      ledLastToggleTimes := Function.update s.ledLastToggleTimes i currentTime
      ledStates := Function.update s.ledStates i (!s.ledStates i)
      ledPinLevel := Function.update s.ledPinLevel i (!s.ledStates i) }
  else s

/-- `void blinkLedsAsynchronously()`; `currentTime` is the value of `millis()`. -/
def blinkLedsAsynchronously (currentTime : Nat) (s : State) : State :=
  indices.foldl (blinkSlot currentTime) s

/-- What one iteration of `loop()` reads from the hardware: the two samples of
the button pin, the `digitalRead` function seen by `monitorTimerPins`, and the
values `millis()` returns inside `startNewSequence`, `monitorTimerPins` and
`blinkLedsAsynchronously`. -/
structure LoopInput where
  button1 : Bool
  button2 : Bool
  pins : Int → Bool
  tStart : Nat
  tMonitor : Nat
  tBlink : Nat

/-- Step 1 of `loop()`: the button check. -/
def loopTrigger (inp : LoopInput) (s : State) : State :=
  if !s.sequenceIsActive && inp.button1 == LOW then
    if inp.button2 == LOW then startNewSequence inp.tStart s else s
  else s

/-- Step 2 of `loop()`: monitor the timers while a sequence is running. -/
def loopMonitor (inp : LoopInput) (s : State) : State :=
  if s.sequenceIsActive then monitorTimerPins inp.pins inp.tMonitor s else s

/-- Step 3 of `loop()`: blink the LEDs when finished. -/
def loopBlink (inp : LoopInput) (s : State) : State :=
  if !s.sequenceIsActive && s.highTimersCount == NUM_TIMERS then
    blinkLedsAsynchronously inp.tBlink s
  else s

/-- `void loop()`: one iteration. -/
def loop (inp : LoopInput) (s : State) : State :=
  loopBlink inp (loopMonitor inp (loopTrigger inp s))

/-- One `monitorTimerPins` call of a run: the pin levels and the tick. -/
structure Sample where
  rd : Int → Bool
  now : Nat

/-- The state after a sequence of `monitorTimerPins` calls. -/
def runMonitor (s : State) (calls : List Sample) : State :=
  calls.foldl (fun st c => monitorTimerPins c.rd c.now st) s

/-- The state after `blinkLedsAsynchronously` calls at the given ticks. -/
def runBlink (s : State) (ticks : List Nat) : State :=
  ticks.foldl (fun st t => blinkLedsAsynchronously t st) s


/-- Channels whose sample in `rd` is HIGH while the previously sampled level
`prev` is LOW, in index order: the rising edges one poll of the pins sees. -/
def risingChannels (prev : Fin NUM_TIMERS → Bool) (rd : Int → Bool) : List (Fin NUM_TIMERS) :=
  indices.filter fun i => rd (TIMER_PINS i) && !prev i

/-- The levels a poll with `digitalRead = rd` samples, per channel. -/
def sampled (rd : Int → Bool) : Fin NUM_TIMERS → Bool := fun i => rd (TIMER_PINS i)

/-- The rising edges of a sequence of polls, in the order they are sampled,
given the levels `prev` sampled just before the first poll.  It is a function of
the sampled waveforms only. -/
def riseLog : (Fin NUM_TIMERS → Bool) → List Sample → List (Fin NUM_TIMERS)
  | _, [] => []
  | prev, c :: cs => risingChannels prev c.rd ++ riseLog (sampled c.rd) cs

/-- Every channel LOW: the levels `startNewSequence` stores in `currentTimerState`. -/
def allLow : Fin NUM_TIMERS → Bool := fun _ => false

/-- The state every `startNewSequence` call produces at tick `now`. -/
def freshRun (now : Nat) : State where
  sequenceIsActive := true
  sequenceStartTime := now
  timerHighStartTimes := fun _ => 0
  timerOnDurations := fun _ => 0
  currentTimerState := fun _ => false
  highSignalOrder := fun _ => 0
  highTimersCount := 0
  ledLastToggleTimes := fun _ => 0
  ledStates := fun _ => false
  ledPinLevel := fun _ => LOW

/-- Value of the completion test `highTimersCount == NUM_TIMERS &&
allTimersFinished` that `monitorTimerPins` evaluates after its capture loop. -/
def completes (rd : Int → Bool) (currentTime : Nat) (s : State) : Bool :=
  (indices.foldl (monitorChannel rd currentTime) s).highTimersCount == NUM_TIMERS &&
    allTimersFinished (indices.foldl (monitorChannel rd currentTime) s)

/-- The order log of `s` records the rising edges `log`: `highTimersCount` is
the length of `log` capped at `NUM_TIMERS`, and the entries below it are the
pins of the channels of `log`, in order. -/
def Logged (s : State) (log : List (Fin NUM_TIMERS)) : Prop :=
  s.highTimersCount = min NUM_TIMERS log.length ∧
  ∀ (j : Fin NUM_TIMERS) (c : Fin NUM_TIMERS), log[j.val]? = some c →
    s.highSignalOrder j = TIMER_PINS c

/-- Every channel that is currently HIGH, and every channel with a non-zero
duration, has risen: `log` holds it once for each of the two. -/
def Seen (s : State) (log : List (Fin NUM_TIMERS)) : Prop :=
  ∀ i : Fin NUM_TIMERS,
    (if s.currentTimerState i = true then 1 else 0) + (if s.timerOnDurations i = 0 then 0 else 1)
      ≤ log.count i

/-- The test `blinkLedsAsynchronously` makes for slot `i` at tick
`currentTime`: the looked-up duration `d` is not zero and the 32-bit difference
`currentTime - ledLastToggleTimes[i]` is at least `d`. -/
def Toggles (currentTime : Nat) (s : State) (i : Fin NUM_TIMERS) : Prop :=
  blinkDuration s i ≠ 0 ∧ blinkDuration s i ≤ sub32 currentTime (s.ledLastToggleTimes i)

instance (currentTime : Nat) (s : State) (i : Fin NUM_TIMERS) :
    Decidable (Toggles currentTime s i) := by
  unfold Toggles
  infer_instance

/-- Number of positions below `highTimersCount` at which `highSignalOrder`
holds `pin`: how often the pin appears in the recorded firing order. -/
def pinOccurrences (s : State) (pin : Int) : Nat :=
  (indices.filter fun j => decide (j.val < s.highTimersCount) && s.highSignalOrder j == pin).length

/-- The order array after the pins of the channels `l` have been appended, one
per free position from `count` on, to an array `order` whose first `count`
entries are in use; channels that find no free position are dropped. -/
def appendOrder (order : Fin NUM_TIMERS → Int) (count : Nat) (l : List (Fin NUM_TIMERS)) :
    Fin NUM_TIMERS → Int :=
  fun p =>
    if p.val < count then order p
    else
      match l[p.val - count]? with
      | some c => TIMER_PINS c
      | none => order p

/-- The entry count after `l` has been appended to a log of `count` entries
that holds at most `NUM_TIMERS`. -/
def appendCount (count : Nat) (l : List (Fin NUM_TIMERS)) : Nat :=
  count + min l.length (NUM_TIMERS - count)

/-- The state after a sequence of `loop()` iterations. -/
def runLoop (s : State) (inputs : List LoopInput) : State :=
  inputs.foldl (fun st inp => loop inp st) s

/-- Number of `blinkLedsAsynchronously` calls, made at the given ticks in
turn, that flip `ledStates[i]`. -/
def toggleCount (i : Fin NUM_TIMERS) : State → List Nat → Nat
  | _, [] => 0
  | s, t :: ts =>
    (if (blinkLedsAsynchronously t s).ledStates i = s.ledStates i then 0 else 1)
      + toggleCount i (blinkLedsAsynchronously t s) ts

/-- What holds of the state at every point of the main loop: if the sequence
is not active and the log is full, every duration is non-zero; and every entry
of the log in use is one of the timer pins. -/
def LoopInv (s : State) : Prop :=
  (s.sequenceIsActive = false → s.highTimersCount = NUM_TIMERS →
    ∀ i, s.timerOnDurations i ≠ 0) ∧
  ∀ j : Fin NUM_TIMERS, j.val < s.highTimersCount → ∃ c, s.highSignalOrder j = TIMER_PINS c

/-- An example playback state: slots 0..6 show channels 0..6, channel 0 has
duration 100 and the other channels 250, no LED has toggled yet. -/
def examplePlayback : State :=
  { freshRun 0 with
    sequenceIsActive := false, highSignalOrder := TIMER_PINS, highTimersCount := 7,
    timerOnDurations := fun j => if j = 0 then 100 else 250 }

/-- The example playback state with slots other than slot 1 in a different
playback state: LEDs 0 and 2 lit, last toggles at tick 290. -/
def examplePlaybackOther : State :=
  { examplePlayback with
    ledStates := fun j => j == 0 || j == 2,
    ledLastToggleTimes := fun j => if j = 1 then 0 else 290 }

/-- An example capture state: channels 0..4 have fired one per poll (five
entries logged), and channel 0 has fallen again. -/
def exampleFiveLogged : State :=
  runMonitor (startNewSequence 0 boot)
    [⟨fun p => p ≤ 22, 1⟩, ⟨fun p => p ≤ 23, 2⟩, ⟨fun p => p ≤ 24, 3⟩, ⟨fun p => p ≤ 25, 4⟩,
      ⟨fun p => p ≤ 26, 5⟩, ⟨fun p => 23 ≤ p && p ≤ 26, 6⟩]

/-! ## The pin tables -/

theorem indices_eq : indices = [0, 1, 2, 3, 4, 5, 6] := by decide

theorem indices_nodup : indices.Nodup := List.nodup_finRange _

theorem mem_indices (i : Fin NUM_TIMERS) : i ∈ indices := List.mem_finRange i

theorem TIMER_PINS_injective : Function.Injective TIMER_PINS := by
  intro a b h
  revert h
  fin_cases a <;> fin_cases b <;> simp [TIMER_PINS]

/-! ## One iteration of the capture loop -/

theorem monitorChannel_currentTimerState (rd : Int → Bool) (t : Nat) (s : State)
    (i j : Fin NUM_TIMERS) :
    (monitorChannel rd t s i).currentTimerState j
      = if j = i then rd (TIMER_PINS i) else s.currentTimerState j := by
  unfold monitorChannel
  by_cases hji : j = i
  · subst hji
    cases hr : rd (TIMER_PINS j) <;> cases hc : s.currentTimerState j <;> simp [hr, hc]
    split <;> simp [hc]
  · cases hr : rd (TIMER_PINS i) <;> cases hc : s.currentTimerState i <;>
      simp [hr, hc, hji, Function.update_noteq]
    split <;> simp [hji, Function.update_noteq]

theorem monitorChannel_timerHighStartTimes (rd : Int → Bool) (t : Nat) (s : State)
    (i j : Fin NUM_TIMERS) :
    (monitorChannel rd t s i).timerHighStartTimes j
      = if j = i ∧ rd (TIMER_PINS i) = true ∧ s.currentTimerState i = false then t
        else s.timerHighStartTimes j := by
  unfold monitorChannel
  by_cases hji : j = i
  · subst hji
    cases hr : rd (TIMER_PINS j) <;> cases hc : s.currentTimerState j <;> simp [hr, hc]
    split <;> simp
  · cases hr : rd (TIMER_PINS i) <;> cases hc : s.currentTimerState i <;>
      simp [hr, hc, hji, Function.update_noteq]
    split <;> simp [hji, Function.update_noteq]

theorem monitorChannel_timerOnDurations (rd : Int → Bool) (t : Nat) (s : State)
    (i j : Fin NUM_TIMERS) :
    (monitorChannel rd t s i).timerOnDurations j
      = if j = i ∧ rd (TIMER_PINS i) = false ∧ s.currentTimerState i = true then
          sub32 t (s.timerHighStartTimes i)
        else s.timerOnDurations j := by
  unfold monitorChannel
  by_cases hji : j = i
  · subst hji
    cases hr : rd (TIMER_PINS j) <;> cases hc : s.currentTimerState j <;> simp [hr, hc]
    split <;> simp
  · cases hr : rd (TIMER_PINS i) <;> cases hc : s.currentTimerState i <;>
      simp [hr, hc, hji, Function.update_noteq]
    split <;> simp [hji, Function.update_noteq]

/-- The capture loop body never writes the run flag, the start time or the
playback variables. -/
theorem monitorChannel_frame (rd : Int → Bool) (t : Nat) (s : State) (i : Fin NUM_TIMERS) :
    (monitorChannel rd t s i).sequenceIsActive = s.sequenceIsActive ∧
    (monitorChannel rd t s i).sequenceStartTime = s.sequenceStartTime ∧
    (monitorChannel rd t s i).ledLastToggleTimes = s.ledLastToggleTimes ∧
    (monitorChannel rd t s i).ledStates = s.ledStates ∧
    (monitorChannel rd t s i).ledPinLevel = s.ledPinLevel := by
  unfold monitorChannel
  cases hr : rd (TIMER_PINS i) <;> cases hc : s.currentTimerState i <;> simp [hr, hc]
  split <;> simp

/-- How the loop body for channel `i` changes the order log: a rising edge
appends `TIMER_PINS i` at position `highTimersCount` when that is below
`NUM_TIMERS`; nothing else is written. -/
theorem monitorChannel_order (rd : Int → Bool) (t : Nat) (s : State) (i : Fin NUM_TIMERS) :
    (rd (TIMER_PINS i) = true ∧ s.currentTimerState i = false ∧
        ∃ h : s.highTimersCount < NUM_TIMERS,
          (monitorChannel rd t s i).highTimersCount = s.highTimersCount + 1 ∧
          (monitorChannel rd t s i).highSignalOrder
            = Function.update s.highSignalOrder ⟨s.highTimersCount, h⟩ (TIMER_PINS i)) ∨
    ((rd (TIMER_PINS i) = true ∧ s.currentTimerState i = false → NUM_TIMERS ≤ s.highTimersCount) ∧
        (monitorChannel rd t s i).highTimersCount = s.highTimersCount ∧
        (monitorChannel rd t s i).highSignalOrder = s.highSignalOrder) := by
  unfold monitorChannel
  cases hr : rd (TIMER_PINS i) <;> cases hc : s.currentTimerState i <;> simp [hr, hc]
  by_cases h : s.highTimersCount < 7
  · left; simp [h]
  · right
    have h7 : NUM_TIMERS = 7 := rfl
    simp [h]
    omega

/-! ## The order log as a list -/

theorem monitorChannel_logged (rd : Int → Bool) (t : Nat) (s : State) (i : Fin NUM_TIMERS)
    (log : List (Fin NUM_TIMERS)) (h : Logged s log) :
    Logged (monitorChannel rd t s i)
      (log ++ if rd (TIMER_PINS i) && !s.currentTimerState i then [i] else []) := by
  obtain ⟨hc, ho⟩ := h
  have h7 : NUM_TIMERS = 7 := rfl
  rcases monitorChannel_order rd t s i with ⟨hr, hl, hlt, hc1, ho1⟩ | ⟨hfull, hc1, ho1⟩
  · have hlen : s.highTimersCount = log.length := by omega
    simp only [hr, hl, Bool.not_false, Bool.and_self, if_true]
    refine ⟨by rw [hc1, List.length_append, List.length_singleton]; omega, ?_⟩
    intro j c hj
    rw [ho1]
    by_cases hjc : j.val = log.length
    · have : j = ⟨s.highTimersCount, hlt⟩ := Fin.ext (by simp [hjc, hlen])
      rw [this, Function.update_same]
      rw [hjc, List.getElem?_append_right (le_refl _)] at hj
      simp at hj
      rw [hj]
    · have hne : j ≠ ⟨s.highTimersCount, hlt⟩ := fun e => hjc (by rw [e]; exact hlen)
      rw [Function.update_noteq hne]
      have hjl : j.val < log.length := by
        have := (List.getElem?_eq_some_iff.1 hj).1
        simp at this
        omega
      rw [List.getElem?_append_left hjl] at hj
      exact ho j c hj
  · by_cases hrise : rd (TIMER_PINS i) = true ∧ s.currentTimerState i = false
    · have hge := hfull hrise
      simp only [hrise.1, hrise.2, Bool.not_false, Bool.and_self, if_true]
      refine ⟨by rw [hc1, List.length_append, List.length_singleton]; omega, ?_⟩
      intro j c hj
      rw [ho1]
      have hjl : j.val < log.length := by have := j.isLt; omega
      rw [List.getElem?_append_left hjl] at hj
      exact ho j c hj
    · have : (rd (TIMER_PINS i) && !s.currentTimerState i) = false := by
        cases hr : rd (TIMER_PINS i) <;> cases hcs : s.currentTimerState i <;> simp_all
      simp only [this, Bool.false_eq_true, if_false, List.append_nil]
      exact ⟨by rw [hc1]; exact hc, fun j c hj => by rw [ho1]; exact ho j c hj⟩

theorem monitorChannel_seen (rd : Int → Bool) (t : Nat) (s : State) (i : Fin NUM_TIMERS)
    (log : List (Fin NUM_TIMERS)) (h : Seen s log) :
    Seen (monitorChannel rd t s i)
      (log ++ if rd (TIMER_PINS i) && !s.currentTimerState i then [i] else []) := by
  intro j
  have hj := h j
  rw [monitorChannel_currentTimerState, monitorChannel_timerOnDurations, List.count_append]
  by_cases hji : j = i
  · subst hji
    cases hr : rd (TIMER_PINS j) <;> cases hcs : s.currentTimerState j <;>
      simp only [hr, hcs, true_and, and_true, and_false, if_true, if_false, Bool.not_true,
        Bool.not_false, Bool.and_self, Bool.and_false, Bool.false_and, Bool.false_eq_true,
        List.count_nil, List.count_singleton_self, reduceCtorEq] at hj ⊢ <;>
      split_ifs at hj ⊢ <;> omega
  · have hc0 : List.count j (if (rd (TIMER_PINS i) && !s.currentTimerState i) = true then [i]
        else []) = 0 := by
      split
      · exact List.count_eq_zero.2 (by simpa using hji)
      · rfl
    simp only [hji, false_and, if_false, hc0] at hj ⊢
    omega

/-! ## The whole capture loop -/

/-- The per-channel variables after the loop body has run for the distinct
indices `l`: a channel of `l` has been stepped once, from its values in `s`. -/
theorem foldl_monitorChannel_channel (rd : Int → Bool) (t : Nat) (l : List (Fin NUM_TIMERS))
    (hl : l.Nodup) (s : State) (j : Fin NUM_TIMERS) :
    (l.foldl (monitorChannel rd t) s).currentTimerState j
        = (if j ∈ l then rd (TIMER_PINS j) else s.currentTimerState j) ∧
    (l.foldl (monitorChannel rd t) s).timerHighStartTimes j
        = (if j ∈ l ∧ rd (TIMER_PINS j) = true ∧ s.currentTimerState j = false then t
           else s.timerHighStartTimes j) ∧
    (l.foldl (monitorChannel rd t) s).timerOnDurations j
        = (if j ∈ l ∧ rd (TIMER_PINS j) = false ∧ s.currentTimerState j = true then
             sub32 t (s.timerHighStartTimes j)
           else s.timerOnDurations j) := by
  induction l generalizing s with
  | nil => simp
  | cons i l ih =>
    obtain ⟨hi, hl⟩ := List.nodup_cons.1 hl
    rw [List.foldl_cons]
    obtain ⟨h1, h2, h3⟩ := ih hl (monitorChannel rd t s i)
    rw [h1, h2, h3, monitorChannel_currentTimerState, monitorChannel_timerHighStartTimes,
      monitorChannel_timerOnDurations]
    by_cases hji : j = i
    · subst hji
      simp [hi]
    · simp [hji]

theorem foldl_monitorChannel_frame (rd : Int → Bool) (t : Nat) (l : List (Fin NUM_TIMERS))
    (s : State) :
    (l.foldl (monitorChannel rd t) s).sequenceIsActive = s.sequenceIsActive ∧
    (l.foldl (monitorChannel rd t) s).sequenceStartTime = s.sequenceStartTime ∧
    (l.foldl (monitorChannel rd t) s).ledLastToggleTimes = s.ledLastToggleTimes ∧
    (l.foldl (monitorChannel rd t) s).ledStates = s.ledStates ∧
    (l.foldl (monitorChannel rd t) s).ledPinLevel = s.ledPinLevel := by
  induction l generalizing s with
  | nil => simp
  | cons i l ih =>
    rw [List.foldl_cons]
    obtain ⟨h1, h2, h3, h4, h5⟩ := ih (monitorChannel rd t s i)
    obtain ⟨g1, g2, g3, g4, g5⟩ := monitorChannel_frame rd t s i
    exact ⟨h1.trans g1, h2.trans g2, h3.trans g3, h4.trans g4, h5.trans g5⟩

/-- Running the loop body over distinct indices `l` appends to the log the
channels of `l` that rise, in the order of `l`. -/
theorem foldl_monitorChannel_log (rd : Int → Bool) (t : Nat) (l : List (Fin NUM_TIMERS))
    (hl : l.Nodup) (s : State) (log : List (Fin NUM_TIMERS)) (hlog : Logged s log)
    (hseen : Seen s log) :
    Logged (l.foldl (monitorChannel rd t) s)
        (log ++ l.filter fun i => rd (TIMER_PINS i) && !s.currentTimerState i) ∧
    Seen (l.foldl (monitorChannel rd t) s)
        (log ++ l.filter fun i => rd (TIMER_PINS i) && !s.currentTimerState i) := by
  induction l generalizing s log with
  | nil => simpa using ⟨hlog, hseen⟩
  | cons i l ih =>
    obtain ⟨hi, hl⟩ := List.nodup_cons.1 hl
    rw [List.foldl_cons]
    have key := ih hl (monitorChannel rd t s i) _ (monitorChannel_logged rd t s i log hlog)
      (monitorChannel_seen rd t s i log hseen)
    have hfilter : (l.filter fun k => rd (TIMER_PINS k) && !(monitorChannel rd t s i).currentTimerState k)
        = l.filter fun k => rd (TIMER_PINS k) && !s.currentTimerState k := by
      apply List.filter_congr
      intro k hk
      have hki : k ≠ i := fun e => hi (e ▸ hk)
      rw [monitorChannel_currentTimerState, if_neg hki]
    rw [hfilter, List.append_assoc] at key
    have hcons : (List.filter (fun k => rd (TIMER_PINS k) && !s.currentTimerState k) (i :: l))
        = (if (rd (TIMER_PINS i) && !s.currentTimerState i) = true then [i] else [])
          ++ l.filter fun k => rd (TIMER_PINS k) && !s.currentTimerState k := by
      rw [List.filter_cons]
      split <;> simp
    rw [hcons]
    exact key

theorem monitorTimerPins_eq (rd : Int → Bool) (t : Nat) (s : State) :
    monitorTimerPins rd t s
      = { indices.foldl (monitorChannel rd t) s with
          sequenceIsActive := s.sequenceIsActive && !completes rd t s } := by
  have hf := (foldl_monitorChannel_frame rd t indices s).1
  unfold monitorTimerPins
  cases h : completes rd t s
  · have h2 := h
    unfold completes at h2
    simp only [h2, Bool.false_eq_true, if_false, Bool.not_false, Bool.and_true, ← hf]
  · have h2 := h
    unfold completes at h2
    simp only [h2, if_true, Bool.not_true, Bool.and_false]

theorem monitorTimerPins_sequenceIsActive (rd : Int → Bool) (t : Nat) (s : State) :
    (monitorTimerPins rd t s).sequenceIsActive = (s.sequenceIsActive && !completes rd t s) := by
  rw [monitorTimerPins_eq]

/-- After a poll, `currentTimerState` holds the sampled levels. -/
theorem monitorTimerPins_currentTimerState (rd : Int → Bool) (t : Nat) (s : State) :
    (monitorTimerPins rd t s).currentTimerState = sampled rd := by
  rw [monitorTimerPins_eq]
  funext j
  have := (foldl_monitorChannel_channel rd t indices indices_nodup s j).1
  simpa [mem_indices, sampled] using this

theorem monitorTimerPins_timerHighStartTimes (rd : Int → Bool) (t : Nat) (s : State)
    (j : Fin NUM_TIMERS) :
    (monitorTimerPins rd t s).timerHighStartTimes j
      = if rd (TIMER_PINS j) = true ∧ s.currentTimerState j = false then t
        else s.timerHighStartTimes j := by
  rw [monitorTimerPins_eq]
  have := (foldl_monitorChannel_channel rd t indices indices_nodup s j).2.1
  simpa [mem_indices] using this

theorem monitorTimerPins_timerOnDurations (rd : Int → Bool) (t : Nat) (s : State)
    (j : Fin NUM_TIMERS) :
    (monitorTimerPins rd t s).timerOnDurations j
      = if rd (TIMER_PINS j) = false ∧ s.currentTimerState j = true then
          sub32 t (s.timerHighStartTimes j)
        else s.timerOnDurations j := by
  rw [monitorTimerPins_eq]
  have := (foldl_monitorChannel_channel rd t indices indices_nodup s j).2.2
  simpa [mem_indices] using this

theorem monitorTimerPins_frame (rd : Int → Bool) (t : Nat) (s : State) :
    (monitorTimerPins rd t s).sequenceStartTime = s.sequenceStartTime ∧
    (monitorTimerPins rd t s).ledLastToggleTimes = s.ledLastToggleTimes ∧
    (monitorTimerPins rd t s).ledStates = s.ledStates ∧
    (monitorTimerPins rd t s).ledPinLevel = s.ledPinLevel := by
  rw [monitorTimerPins_eq]
  exact (foldl_monitorChannel_frame rd t indices s).2

theorem monitorTimerPins_log (rd : Int → Bool) (t : Nat) (s : State)
    (log : List (Fin NUM_TIMERS)) (hlog : Logged s log) (hseen : Seen s log) :
    Logged (monitorTimerPins rd t s) (log ++ risingChannels s.currentTimerState rd) ∧
    Seen (monitorTimerPins rd t s) (log ++ risingChannels s.currentTimerState rd) := by
  rw [monitorTimerPins_eq]
  exact foldl_monitorChannel_log rd t indices indices_nodup s log hlog hseen

/-! ## Runs of the capture tick -/

theorem runMonitor_append (s : State) (a b : List Sample) :
    runMonitor s (a ++ b) = runMonitor (runMonitor s a) b := by
  simp [runMonitor, List.foldl_append]

theorem runMonitor_cons (s : State) (c : Sample) (cs : List Sample) :
    runMonitor s (c :: cs) = runMonitor (monitorTimerPins c.rd c.now s) cs := rfl

theorem riseLog_append (s : State) (a b : List Sample) :
    riseLog s.currentTimerState (a ++ b)
      = riseLog s.currentTimerState a ++ riseLog (runMonitor s a).currentTimerState b := by
  induction a generalizing s with
  | nil => rfl
  | cons c cs ih =>
    have h := ih (monitorTimerPins c.rd c.now s)
    rw [monitorTimerPins_currentTimerState] at h
    rw [List.cons_append, riseLog, riseLog, runMonitor_cons, h, List.append_assoc]

/-- A run of polls appends its rising edges to the order log. -/
theorem runMonitor_log (calls : List Sample) (s : State) (log : List (Fin NUM_TIMERS))
    (hlog : Logged s log) (hseen : Seen s log) :
    Logged (runMonitor s calls) (log ++ riseLog s.currentTimerState calls) ∧
    Seen (runMonitor s calls) (log ++ riseLog s.currentTimerState calls) := by
  induction calls generalizing s log with
  | nil => simpa [runMonitor, riseLog] using ⟨hlog, hseen⟩
  | cons c cs ih =>
    obtain ⟨h1, h2⟩ := monitorTimerPins_log c.rd c.now s log hlog hseen
    have h := ih (monitorTimerPins c.rd c.now s) _ h1 h2
    rw [monitorTimerPins_currentTimerState, List.append_assoc] at h
    exact h

/-! ## Reset -/

theorem foldl_resetChannel (l : List (Fin NUM_TIMERS)) (s : State) :
    (l.foldl resetChannel s).sequenceIsActive = s.sequenceIsActive ∧
    (l.foldl resetChannel s).sequenceStartTime = s.sequenceStartTime ∧
    (l.foldl resetChannel s).highTimersCount = s.highTimersCount ∧
    ∀ j,
      (l.foldl resetChannel s).timerHighStartTimes j
        = (if j ∈ l then 0 else s.timerHighStartTimes j) ∧
      (l.foldl resetChannel s).timerOnDurations j = (if j ∈ l then 0 else s.timerOnDurations j) ∧
      (l.foldl resetChannel s).currentTimerState j
        = (if j ∈ l then false else s.currentTimerState j) ∧
      (l.foldl resetChannel s).highSignalOrder j = (if j ∈ l then 0 else s.highSignalOrder j) ∧
      (l.foldl resetChannel s).ledStates j = (if j ∈ l then false else s.ledStates j) ∧
      (l.foldl resetChannel s).ledLastToggleTimes j
        = (if j ∈ l then 0 else s.ledLastToggleTimes j) ∧
      (l.foldl resetChannel s).ledPinLevel j = (if j ∈ l then LOW else s.ledPinLevel j) := by
  induction l generalizing s with
  | nil => simp
  | cons i l ih =>
    rw [List.foldl_cons]
    obtain ⟨h1, h2, h3, h4⟩ := ih (resetChannel s i)
    refine ⟨h1, h2, h3, fun j => ?_⟩
    obtain ⟨g1, g2, g3, g4, g5, g6, g7⟩ := h4 j
    rw [g1, g2, g3, g4, g5, g6, g7]
    by_cases hji : j = i
    · subst hji
      simp [resetChannel]
    · simp [resetChannel, hji, Function.update_noteq]

theorem startNewSequence_eq (now : Nat) (s : State) : startNewSequence now s = freshRun now := by
  obtain ⟨h1, h2, h3, h4⟩ := foldl_resetChannel indices
    { s with sequenceIsActive := true, sequenceStartTime := now, highTimersCount := 0 }
  have e : ∀ (a b : State), a.sequenceIsActive = b.sequenceIsActive →
      a.sequenceStartTime = b.sequenceStartTime →
      a.timerHighStartTimes = b.timerHighStartTimes → a.timerOnDurations = b.timerOnDurations →
      a.currentTimerState = b.currentTimerState → a.highSignalOrder = b.highSignalOrder →
      a.highTimersCount = b.highTimersCount → a.ledLastToggleTimes = b.ledLastToggleTimes →
      a.ledStates = b.ledStates → a.ledPinLevel = b.ledPinLevel → a = b := by
    intro a b
    cases a
    cases b
    simp only [State.mk.injEq]
    intros
    simp_all
  unfold startNewSequence
  apply e
  · exact h1
  · exact h2
  · funext j; simpa [mem_indices] using (h4 j).1
  · funext j; simpa [mem_indices] using (h4 j).2.1
  · funext j; simpa [mem_indices] using (h4 j).2.2.1
  · funext j; simpa [mem_indices] using (h4 j).2.2.2.1
  · exact h3
  · funext j; simpa [mem_indices] using (h4 j).2.2.2.2.2.1
  · funext j; simpa [mem_indices] using (h4 j).2.2.2.2.1
  · funext j; simpa [mem_indices] using (h4 j).2.2.2.2.2.2

theorem freshRun_logged (now : Nat) : Logged (freshRun now) [] :=
  ⟨rfl, fun j c h => by simp at h⟩

theorem freshRun_seen (now : Nat) : Seen (freshRun now) [] := by
  intro i
  simp [freshRun]

/-- The order log after a run that starts with `startNewSequence`: it records
the rising edges of the sampled waveforms. -/
theorem run_log (now : Nat) (s0 : State) (calls : List Sample) :
    Logged (runMonitor (startNewSequence now s0) calls) (riseLog allLow calls) ∧
    Seen (runMonitor (startNewSequence now s0) calls) (riseLog allLow calls) := by
  rw [startNewSequence_eq]
  simpa using runMonitor_log calls (freshRun now) [] (freshRun_logged now) (freshRun_seen now)

theorem nodup_length_le (l : List (Fin NUM_TIMERS)) (h : l.Nodup) : l.length ≤ NUM_TIMERS := by
  have := List.Nodup.length_le_card h
  simpa using this

/-- A channel that is sampled at its stored level on every poll keeps its
level, its start time and its duration. -/
theorem runMonitor_steady (i : Fin NUM_TIMERS) (calls : List Sample) (s : State)
    (h : ∀ c ∈ calls, c.rd (TIMER_PINS i) = s.currentTimerState i) :
    (runMonitor s calls).currentTimerState i = s.currentTimerState i ∧
    (runMonitor s calls).timerHighStartTimes i = s.timerHighStartTimes i ∧
    (runMonitor s calls).timerOnDurations i = s.timerOnDurations i := by
  induction calls generalizing s with
  | nil => simp [runMonitor]
  | cons c cs ih =>
    have hc : c.rd (TIMER_PINS i) = s.currentTimerState i := h c (List.mem_cons_self _ _)
    have hcur : (monitorTimerPins c.rd c.now s).currentTimerState i = s.currentTimerState i := by
      rw [monitorTimerPins_currentTimerState]
      exact hc
    have hths : (monitorTimerPins c.rd c.now s).timerHighStartTimes i = s.timerHighStartTimes i := by
      rw [monitorTimerPins_timerHighStartTimes, hc]
      cases s.currentTimerState i <;> simp
    have hdur : (monitorTimerPins c.rd c.now s).timerOnDurations i = s.timerOnDurations i := by
      rw [monitorTimerPins_timerOnDurations, hc]
      cases s.currentTimerState i <;> simp
    have h2 := ih (monitorTimerPins c.rd c.now s) (fun d hd => by
      rw [hcur]
      exact h d (List.mem_cons_of_mem _ hd))
    rw [runMonitor_cons]
    rw [hcur, hths, hdur] at h2
    exact h2

theorem sub32_of_le (a b : Nat) (hab : a ≤ b) (hb : b < U32) : sub32 b a = b - a := by
  unfold sub32
  have ha : a % U32 = a := Nat.mod_eq_of_lt (lt_of_le_of_lt hab hb)
  rw [ha]
  have : b + U32 - a = (b - a) + U32 := by omega
  rw [this, Nat.add_mod_right]
  exact Nat.mod_eq_of_lt (by omega)

/-! ## Claims -/

/-- C1 (edge ordering).  Start a run with `startNewSequence` and poll the pins
any number of times.  If the rising edges the polls sample, listed in sampling
order, are the channels `cs`, all distinct (no channel rises a second time),
then afterwards `highTimersCount` is the number `k` of those channels, `k ≤ 7`,
and `highSignalOrder[0..k-1]` holds their input pins in exactly that order.  The
ticks of the polls do not matter; strictly increasing ticks with one new channel
per tick is the case where `cs` lists one channel per poll. -/
theorem edge_ordering (now : Nat) (s0 : State) (calls : List Sample)
    (cs : List (Fin NUM_TIMERS)) (hrise : riseLog allLow calls = cs) (hdistinct : cs.Nodup) :
    (runMonitor (startNewSequence now s0) calls).highTimersCount = cs.length ∧
    cs.length ≤ NUM_TIMERS ∧
    ∀ (j : Fin NUM_TIMERS) (h : j.val < cs.length),
      (runMonitor (startNewSequence now s0) calls).highSignalOrder j = TIMER_PINS cs[j.val] := by
  have hlen := nodup_length_le cs hdistinct
  obtain ⟨⟨hc, ho⟩, -⟩ := run_log now s0 calls
  rw [hrise] at hc ho
  refine ⟨by rw [hc]; exact min_eq_right hlen, hlen, fun j h => ho j _ ?_⟩
  exact List.getElem?_eq_getElem h

/-- C1 at a concrete run: channel 3 rises at tick 1, channel 0 at tick 2,
channel 5 at tick 4. -/
theorem edge_ordering_witness :
    riseLog allLow
        [⟨fun p => p == 25, 1⟩, ⟨fun p => p == 25 || p == 22, 2⟩, ⟨fun p => p == 22 || p == 27, 4⟩]
      = [3, 0, 5] ∧
    ([3, 0, 5] : List (Fin NUM_TIMERS)).Nodup ∧
    (runMonitor (startNewSequence 0 boot)
        [⟨fun p => p == 25, 1⟩, ⟨fun p => p == 25 || p == 22, 2⟩,
          ⟨fun p => p == 22 || p == 27, 4⟩]).highTimersCount = 3 ∧
    (runMonitor (startNewSequence 0 boot)
        [⟨fun p => p == 25, 1⟩, ⟨fun p => p == 25 || p == 22, 2⟩,
          ⟨fun p => p == 22 || p == 27, 4⟩]).highSignalOrder 2 = 27 :=
  ⟨by decide, by decide,
    (edge_ordering 0 boot _ [3, 0, 5] (by decide) (by decide)).1,
    (edge_ordering 0 boot _ [3, 0, 5] (by decide) (by decide)).2.2 2 (by decide)⟩

/-- C2 (duration accuracy).  From any state in which channel `i` is stored LOW,
let a poll at tick `A` sample it HIGH (rising edge), let any number of further
polls sample it HIGH, and let the next poll, at tick `B > A`, sample it LOW
(falling edge).  Right after that poll `timerOnDurations[i] = B - A`, whatever
the other channels were sampled as and whatever the ticks in between. -/
theorem duration_accuracy (s : State) (i : Fin NUM_TIMERS) (rdA : Int → Bool) (A : Nat)
    (mid : List Sample) (rdB : Int → Bool) (B : Nat)
    (hlow : s.currentTimerState i = false) (hrise : rdA (TIMER_PINS i) = true)
    (hmid : ∀ c ∈ mid, c.rd (TIMER_PINS i) = true) (hfall : rdB (TIMER_PINS i) = false)
    (hAB : A < B) (hB : B < U32) :
    (monitorTimerPins rdB B (runMonitor (monitorTimerPins rdA A s) mid)).timerOnDurations i
      = B - A := by
  have hcur : (monitorTimerPins rdA A s).currentTimerState i = true := by
    rw [monitorTimerPins_currentTimerState]
    exact hrise
  have hths : (monitorTimerPins rdA A s).timerHighStartTimes i = A := by
    rw [monitorTimerPins_timerHighStartTimes]
    simp [hrise, hlow]
  obtain ⟨h1, h2, -⟩ := runMonitor_steady i mid (monitorTimerPins rdA A s) (fun c hc => by
    rw [hcur]
    exact hmid c hc)
  rw [monitorTimerPins_timerOnDurations, h1, h2, hcur, hths]
  simp only [hfall, and_self, if_true]
  exact sub32_of_le A B (le_of_lt hAB) hB

/-- C2 at a concrete run: channel 2 rises at tick 10 and falls at tick 250
while channels 0 and 6 switch in between. -/
theorem duration_accuracy_witness :
    (monitorTimerPins (fun p => p == 28) 250
      (runMonitor (monitorTimerPins (fun p => p == 24) 10 (startNewSequence 3 boot))
        [⟨fun p => p == 24 || p == 22, 20⟩, ⟨fun p => p == 24 || p == 28, 90⟩])).timerOnDurations 2
      = 250 - 10 :=
  duration_accuracy (startNewSequence 3 boot) 2 (fun p => p == 24) 10
    [⟨fun p => p == 24 || p == 22, 20⟩, ⟨fun p => p == 24 || p == 28, 90⟩] (fun p => p == 28) 250
    (by decide) (by decide) (by decide) (by decide) (by decide) (by decide)

theorem allTimersFinished_iff (s : State) :
    allTimersFinished s = true ↔ ∀ i, s.timerOnDurations i ≠ 0 := by
  unfold allTimersFinished
  simp [List.all_eq_true, mem_indices]

/-- A log that holds every channel has at least `NUM_TIMERS` entries. -/
theorem length_ge_of_all_mem (log : List (Fin NUM_TIMERS)) (h : ∀ i, i ∈ log) :
    NUM_TIMERS ≤ log.length := by
  have h1 : log.toFinset = Finset.univ := by
    ext i
    simp [h i]
  have h2 := List.toFinset_card_le log
  rw [h1, Finset.card_univ, Fintype.card_fin] at h2
  exact h2

/-- In a state whose log is consistent, all durations non-zero forces the
count to `NUM_TIMERS`. -/
theorem count_full_of_finished (s : State) (log : List (Fin NUM_TIMERS)) (hl : Logged s log)
    (hs : Seen s log) (hfin : ∀ i, s.timerOnDurations i ≠ 0) : s.highTimersCount = NUM_TIMERS := by
  have hmem : ∀ i, i ∈ log := by
    intro i
    have := hs i
    rw [if_neg (hfin i)] at this
    exact List.count_pos_iff.1 (by omega)
  have := length_ge_of_all_mem log hmem
  rw [hl.1]
  exact min_eq_left this

/-- In a run, the completion test of a poll succeeds exactly when all seven
durations are non-zero after the capture loop of that poll. -/
theorem completes_iff (now : Nat) (s0 : State) (calls : List Sample) (rd : Int → Bool) (t : Nat) :
    completes rd t (runMonitor (startNewSequence now s0) calls) = true ↔
      ∀ i, (monitorTimerPins rd t (runMonitor (startNewSequence now s0) calls)).timerOnDurations i
        ≠ 0 := by
  obtain ⟨hl, hs⟩ := run_log now s0 calls
  obtain ⟨hl1, hs1⟩ := monitorTimerPins_log rd t _ _ hl hs
  rw [monitorTimerPins_eq] at hl1 hs1 ⊢
  unfold completes
  rw [Bool.and_eq_true, allTimersFinished_iff]
  constructor
  · exact fun h => h.2
  · intro h
    refine ⟨?_, h⟩
    have := count_full_of_finished _ _ hl1 hs1 h
    simpa using this

/-- C3 (completion rule).  In every state reached from `startNewSequence` by
polls with arbitrary samples and ticks, a further poll takes its completion
branch (the one that clears `sequenceIsActive`) if and only if all seven
`timerOnDurations` are non-zero after that poll's capture loop; so the flag is
false after the poll exactly when it was already false or every duration is then
non-zero.  Hence a run has left Capturing after some polls exactly when, after
one of its polls up to there, all seven durations were non-zero: it leaves on
the first such poll and not before. -/
theorem completion_rule (now : Nat) (s0 : State) (calls : List Sample) :
    (∀ (rd : Int → Bool) (t : Nat),
      (completes rd t (runMonitor (startNewSequence now s0) calls) = true
        ↔ ∀ i, (monitorTimerPins rd t
            (runMonitor (startNewSequence now s0) calls)).timerOnDurations i ≠ 0)) ∧
    (∀ (rd : Int → Bool) (t : Nat),
      ((monitorTimerPins rd t (runMonitor (startNewSequence now s0) calls)).sequenceIsActive = false
        ↔ (runMonitor (startNewSequence now s0) calls).sequenceIsActive = false ∨
          ∀ i, (monitorTimerPins rd t
            (runMonitor (startNewSequence now s0) calls)).timerOnDurations i ≠ 0)) ∧
    ((runMonitor (startNewSequence now s0) calls).sequenceIsActive = false
      ↔ ∃ pre post, calls = pre ++ post ∧
          ∀ i, (runMonitor (startNewSequence now s0) pre).timerOnDurations i ≠ 0) := by
  have step : ∀ (cs : List Sample) (rd : Int → Bool) (t : Nat),
      ((monitorTimerPins rd t (runMonitor (startNewSequence now s0) cs)).sequenceIsActive = false
        ↔ (runMonitor (startNewSequence now s0) cs).sequenceIsActive = false ∨
          ∀ i, (monitorTimerPins rd t
            (runMonitor (startNewSequence now s0) cs)).timerOnDurations i ≠ 0) := by
    intro cs rd t
    rw [monitorTimerPins_sequenceIsActive, ← completes_iff]
    cases (runMonitor (startNewSequence now s0) cs).sequenceIsActive <;>
      cases completes rd t (runMonitor (startNewSequence now s0) cs) <;> simp
  refine ⟨completes_iff now s0 calls, step calls, ?_⟩
  induction calls using List.reverseRecOn with
  | nil =>
    simp only [runMonitor, List.foldl_nil, startNewSequence_eq]
    constructor
    · intro h
      simp [freshRun] at h
    · rintro ⟨pre, post, hpp, hall⟩
      obtain ⟨rfl, -⟩ := List.append_eq_nil.1 hpp.symm
      exact absurd rfl (hall 0)
  | append_singleton cs c ih =>
    have hrun : runMonitor (startNewSequence now s0) (cs ++ [c])
        = monitorTimerPins c.rd c.now (runMonitor (startNewSequence now s0) cs) := by
      rw [runMonitor_append]
      rfl
    rw [hrun, step cs c.rd c.now, ih, ← hrun]
    constructor
    · rintro (⟨pre, post, hpp, hall⟩ | hall)
      · exact ⟨pre, post ++ [c], by rw [hpp, List.append_assoc], hall⟩
      · exact ⟨cs ++ [c], [], by simp, hall⟩
    · rintro ⟨pre, post, hpp, hall⟩
      rcases List.eq_nil_or_concat post with rfl | ⟨post1, d, rfl⟩
      · right
        rw [List.append_nil] at hpp
        rw [hpp]
        exact hall
      · left
        rw [List.concat_eq_append, ← List.append_assoc] at hpp
        exact ⟨pre, post1, List.append_inj_left' hpp rfl, hall⟩

/-! ## Playback -/

theorem lookupDuration_pin (s : State) (c : Fin NUM_TIMERS) :
    lookupDuration s (TIMER_PINS c) = s.timerOnDurations c := by
  fin_cases c <;> rfl

theorem blinkSlot_frame (t : Nat) (s : State) (i : Fin NUM_TIMERS) :
    (blinkSlot t s i).sequenceIsActive = s.sequenceIsActive ∧
    (blinkSlot t s i).sequenceStartTime = s.sequenceStartTime ∧
    (blinkSlot t s i).timerHighStartTimes = s.timerHighStartTimes ∧
    (blinkSlot t s i).timerOnDurations = s.timerOnDurations ∧
    (blinkSlot t s i).currentTimerState = s.currentTimerState ∧
    (blinkSlot t s i).highSignalOrder = s.highSignalOrder ∧
    (blinkSlot t s i).highTimersCount = s.highTimersCount := by
  unfold blinkSlot
  dsimp only
  split
  · simp
  · split <;> simp

theorem blinkSlot_blinkDuration (t : Nat) (s : State) (i j : Fin NUM_TIMERS) :
    blinkDuration (blinkSlot t s i) j = blinkDuration s j := by
  obtain ⟨-, -, -, h4, -, h6, -⟩ := blinkSlot_frame t s i
  unfold blinkDuration lookupDuration
  rw [h4, h6]

/-- The playback variables of slot `j` after the loop body for slot `i`. -/
theorem blinkSlot_slot (t : Nat) (s : State) (i j : Fin NUM_TIMERS) :
    (blinkSlot t s i).ledStates j
        = (if j = i ∧ Toggles t s i then !s.ledStates j else s.ledStates j) ∧
    (blinkSlot t s i).ledLastToggleTimes j
        = (if j = i ∧ Toggles t s i then t else s.ledLastToggleTimes j) ∧
    (blinkSlot t s i).ledPinLevel j
        = (if j = i ∧ Toggles t s i then !s.ledStates j else s.ledPinLevel j) := by
  unfold blinkSlot Toggles
  dsimp only
  by_cases hd : blinkDuration s i = 0
  · simp [hd]
  · by_cases hge : blinkDuration s i ≤ sub32 t (s.ledLastToggleTimes i)
    · by_cases hji : j = i
      · subst hji
        simp [hd, hge]
      · simp [hd, hge, hji, Function.update_noteq]
    · simp [hd, hge]

theorem foldl_blinkSlot_frame (t : Nat) (l : List (Fin NUM_TIMERS)) (s : State) :
    (l.foldl (blinkSlot t) s).sequenceIsActive = s.sequenceIsActive ∧
    (l.foldl (blinkSlot t) s).sequenceStartTime = s.sequenceStartTime ∧
    (l.foldl (blinkSlot t) s).timerHighStartTimes = s.timerHighStartTimes ∧
    (l.foldl (blinkSlot t) s).timerOnDurations = s.timerOnDurations ∧
    (l.foldl (blinkSlot t) s).currentTimerState = s.currentTimerState ∧
    (l.foldl (blinkSlot t) s).highSignalOrder = s.highSignalOrder ∧
    (l.foldl (blinkSlot t) s).highTimersCount = s.highTimersCount := by
  induction l generalizing s with
  | nil => simp
  | cons i l ih =>
    rw [List.foldl_cons]
    obtain ⟨h1, h2, h3, h4, h5, h6, h7⟩ := ih (blinkSlot t s i)
    obtain ⟨g1, g2, g3, g4, g5, g6, g7⟩ := blinkSlot_frame t s i
    exact ⟨h1.trans g1, h2.trans g2, h3.trans g3, h4.trans g4, h5.trans g5, h6.trans g6,
      h7.trans g7⟩

theorem Toggles_congr (t : Nat) (s s1 : State) (j : Fin NUM_TIMERS)
    (hd : blinkDuration s1 j = blinkDuration s j)
    (hl : s1.ledLastToggleTimes j = s.ledLastToggleTimes j) : Toggles t s1 j ↔ Toggles t s j := by
  unfold Toggles
  rw [hd, hl]

/-- The playback variables of slot `j` after the loop body has run for the
distinct slots `l`: they depend on slot `j` of `s` only. -/
theorem foldl_blinkSlot_slot (t : Nat) (l : List (Fin NUM_TIMERS)) (hl : l.Nodup) (s : State)
    (j : Fin NUM_TIMERS) :
    (l.foldl (blinkSlot t) s).ledStates j
        = (if j ∈ l ∧ Toggles t s j then !s.ledStates j else s.ledStates j) ∧
    (l.foldl (blinkSlot t) s).ledLastToggleTimes j
        = (if j ∈ l ∧ Toggles t s j then t else s.ledLastToggleTimes j) ∧
    (l.foldl (blinkSlot t) s).ledPinLevel j
        = (if j ∈ l ∧ Toggles t s j then !s.ledStates j else s.ledPinLevel j) := by
  induction l generalizing s with
  | nil => simp
  | cons i l ih =>
    obtain ⟨hi, hl⟩ := List.nodup_cons.1 hl
    rw [List.foldl_cons]
    obtain ⟨h1, h2, h3⟩ := ih hl (blinkSlot t s i)
    obtain ⟨g1, g2, g3⟩ := blinkSlot_slot t s i j
    rw [h1, h2, h3]
    by_cases hji : j = i
    · subst hji
      simp only [true_and] at g1 g2 g3
      simp only [hi, false_and, if_false, List.mem_cons, true_or, true_and]
      exact ⟨g1, g2, g3⟩
    · have hT : Toggles t (blinkSlot t s i) j ↔ Toggles t s j :=
        Toggles_congr t s _ j (blinkSlot_blinkDuration t s i j) (by
          rw [g2]
          simp [hji])
      simp only [hji, false_and, if_false] at g1 g2 g3
      simp only [g1, g2, g3, hT, List.mem_cons, hji, false_or]
      exact ⟨trivial, trivial, trivial⟩

theorem blinkLedsAsynchronously_slot (t : Nat) (s : State) (j : Fin NUM_TIMERS) :
    (blinkLedsAsynchronously t s).ledStates j
        = (if Toggles t s j then !s.ledStates j else s.ledStates j) ∧
    (blinkLedsAsynchronously t s).ledLastToggleTimes j
        = (if Toggles t s j then t else s.ledLastToggleTimes j) ∧
    (blinkLedsAsynchronously t s).ledPinLevel j
        = (if Toggles t s j then !s.ledStates j else s.ledPinLevel j) := by
  have := foldl_blinkSlot_slot t indices indices_nodup s j
  simpa [mem_indices] using this

theorem blinkLedsAsynchronously_blinkDuration (t : Nat) (s : State) (j : Fin NUM_TIMERS) :
    blinkDuration (blinkLedsAsynchronously t s) j = blinkDuration s j := by
  obtain ⟨-, -, -, h4, -, h6, -⟩ := foldl_blinkSlot_frame t indices s
  unfold blinkDuration lookupDuration blinkLedsAsynchronously
  rw [h4, h6]

/-- C4 (firing-order remap).  After any run started by `startNewSequence`, in
particular one that ran to completion, the blink duration that
`blinkLedsAsynchronously` computes for output slot 0 is the final
`timerOnDurations` value of the channel `c` whose rising edge was sampled first,
whatever its index; and in every state the duration of slot `i` is that of the
channel whose pin is stored in `highSignalOrder[i]`. -/
theorem firing_order_remap (now : Nat) (s0 : State) (calls : List Sample) (c : Fin NUM_TIMERS)
    (rest : List (Fin NUM_TIMERS)) (hfirst : riseLog allLow calls = c :: rest) :
    blinkDuration (runMonitor (startNewSequence now s0) calls) 0
      = (runMonitor (startNewSequence now s0) calls).timerOnDurations c ∧
    ∀ (s : State) (i k : Fin NUM_TIMERS), s.highSignalOrder i = TIMER_PINS k →
      blinkDuration s i = s.timerOnDurations k := by
  have hgen : ∀ (s : State) (i k : Fin NUM_TIMERS), s.highSignalOrder i = TIMER_PINS k →
      blinkDuration s i = s.timerOnDurations k := by
    intro s i k h
    unfold blinkDuration
    rw [h, lookupDuration_pin]
  refine ⟨hgen _ 0 c ?_, hgen⟩
  obtain ⟨⟨-, ho⟩, -⟩ := run_log now s0 calls
  rw [hfirst] at ho
  exact ho 0 c (by simp)

/-- C4 at a completed run in which channel 3 fires first (tick 1, on for 4
ticks) and the other six fire at tick 2 and stay on for 10 ticks: slot 0 blinks
with channel 3's duration 4, not with channel 0's duration 10. -/
theorem firing_order_remap_witness :
    riseLog allLow
        [⟨fun p => p == 25, 1⟩, ⟨fun _ => true, 2⟩, ⟨fun p => p != 25, 5⟩, ⟨fun _ => false, 12⟩]
      = 3 :: [0, 1, 2, 4, 5, 6] ∧
    (runMonitor (startNewSequence 0 boot)
      [⟨fun p => p == 25, 1⟩, ⟨fun _ => true, 2⟩, ⟨fun p => p != 25, 5⟩,
        ⟨fun _ => false, 12⟩]).sequenceIsActive = false ∧
    blinkDuration (runMonitor (startNewSequence 0 boot)
      [⟨fun p => p == 25, 1⟩, ⟨fun _ => true, 2⟩, ⟨fun p => p != 25, 5⟩, ⟨fun _ => false, 12⟩]) 0
      = (runMonitor (startNewSequence 0 boot)
          [⟨fun p => p == 25, 1⟩, ⟨fun _ => true, 2⟩, ⟨fun p => p != 25, 5⟩,
            ⟨fun _ => false, 12⟩]).timerOnDurations 3 ∧
    (runMonitor (startNewSequence 0 boot)
      [⟨fun p => p == 25, 1⟩, ⟨fun _ => true, 2⟩, ⟨fun p => p != 25, 5⟩,
        ⟨fun _ => false, 12⟩]).timerOnDurations 3 = 4 ∧
    (runMonitor (startNewSequence 0 boot)
      [⟨fun p => p == 25, 1⟩, ⟨fun _ => true, 2⟩, ⟨fun p => p != 25, 5⟩,
        ⟨fun _ => false, 12⟩]).timerOnDurations 0 = 10 :=
  ⟨by decide, by decide,
    (firing_order_remap 0 boot _ 3 [0, 1, 2, 4, 5, 6] (by decide)).1, by decide, by decide⟩

/-- C5 (playback toggle rule).  For every state, tick `now` and slot `i`, with
`d` the duration looked up for the slot: one `blinkLedsAsynchronously` call
flips `ledStates[i]` and sets `ledLastToggleTimes[i] = now` if and only if
`d != 0` and the 32-bit difference `now - ledLastToggleTimes[i]` is at least
`d`; otherwise both are unchanged.  The LED pin is written with the flipped
level in the first case and not written in the second. -/
theorem playback_toggle_rule (now : Nat) (s : State) (i : Fin NUM_TIMERS) :
    (((blinkLedsAsynchronously now s).ledStates i = !s.ledStates i ∧
        (blinkLedsAsynchronously now s).ledLastToggleTimes i = now)
      ↔ (blinkDuration s i ≠ 0 ∧ blinkDuration s i ≤ sub32 now (s.ledLastToggleTimes i))) ∧
    (blinkLedsAsynchronously now s).ledStates i
      = (if blinkDuration s i ≠ 0 ∧ blinkDuration s i ≤ sub32 now (s.ledLastToggleTimes i)
          then !s.ledStates i else s.ledStates i) ∧
    (blinkLedsAsynchronously now s).ledLastToggleTimes i
      = (if blinkDuration s i ≠ 0 ∧ blinkDuration s i ≤ sub32 now (s.ledLastToggleTimes i)
          then now else s.ledLastToggleTimes i) ∧
    (blinkLedsAsynchronously now s).ledPinLevel i
      = (if blinkDuration s i ≠ 0 ∧ blinkDuration s i ≤ sub32 now (s.ledLastToggleTimes i)
          then !s.ledStates i else s.ledPinLevel i) := by
  obtain ⟨h1, h2, h3⟩ := blinkLedsAsynchronously_slot now s i
  refine ⟨?_, h1, h2, h3⟩
  rw [h1, h2]
  by_cases hT : Toggles now s i
  · simp only [if_pos hT, and_self, true_iff]
    exact hT
  · simp only [if_neg hT]
    constructor
    · intro h
      cases hs : s.ledStates i <;> simp [hs] at h
    · intro h
      exact absurd h hT

/-- C6 (skip-zero rule).  A slot whose looked-up duration is 0 keeps
`ledStates[i]`, `ledLastToggleTimes[i]` and the level of its LED pin through any
finite sequence of `blinkLedsAsynchronously` calls at arbitrary ticks. -/
theorem skip_zero_rule (s : State) (i : Fin NUM_TIMERS) (ticks : List Nat)
    (hzero : blinkDuration s i = 0) :
    (runBlink s ticks).ledStates i = s.ledStates i ∧
    (runBlink s ticks).ledLastToggleTimes i = s.ledLastToggleTimes i ∧
    (runBlink s ticks).ledPinLevel i = s.ledPinLevel i := by
  induction ticks generalizing s with
  | nil => simp [runBlink]
  | cons t ts ih =>
    obtain ⟨h1, h2, h3⟩ := blinkLedsAsynchronously_slot t s i
    have hT : ¬ Toggles t s i := fun h => h.1 hzero
    rw [if_neg hT] at h1 h2 h3
    have h := ih (blinkLedsAsynchronously t s)
      ((blinkLedsAsynchronously_blinkDuration t s i).trans hzero)
    rw [h1, h2, h3] at h
    exact h

set_option maxRecDepth 8000 in
/-- C6 at a concrete playback state: slots 0..6 show channels 0..6, channel 2
has duration 0 and the others 100.  Polled at ticks 100, 200 and 300, slot 2
stays as it was while slot 0 has toggled three times. -/
theorem skip_zero_rule_witness :
    blinkDuration { freshRun 0 with
        sequenceIsActive := false, highSignalOrder := TIMER_PINS, highTimersCount := 7,
        timerOnDurations := fun j => if j = 2 then 0 else 100 } 2 = 0 ∧
    (runBlink { freshRun 0 with
        sequenceIsActive := false, highSignalOrder := TIMER_PINS, highTimersCount := 7,
        timerOnDurations := fun j => if j = 2 then 0 else 100 } [100, 200, 300]).ledStates 2
      = false ∧
    (runBlink { freshRun 0 with
        sequenceIsActive := false, highSignalOrder := TIMER_PINS, highTimersCount := 7,
        timerOnDurations := fun j => if j = 2 then 0 else 100 } [100, 200, 300]).ledStates 0
      = true :=
  ⟨by decide,
    (skip_zero_rule { freshRun 0 with
        sequenceIsActive := false, highSignalOrder := TIMER_PINS, highTimersCount := 7,
        timerOnDurations := fun j => if j = 2 then 0 else 100 } 2 [100, 200, 300] (by decide)).1,
    by decide⟩

/-- C7 (reset).  For every prior state and tick `now`, `startNewSequence` yields
`sequenceIsActive = true`, `sequenceStartTime = now`, `highTimersCount = 0` and,
for every index, zero start time, zero duration, `currentTimerState` false,
`highSignalOrder` 0, `ledStates` false, `ledLastToggleTimes` 0 (and the LED pin
LOW).  The result does not depend on the prior state, and resetting twice with
the same `now` equals resetting once. -/
theorem reset_clears_everything (now : Nat) (s : State) :
    (startNewSequence now s).sequenceIsActive = true ∧
    (startNewSequence now s).sequenceStartTime = now ∧
    (startNewSequence now s).highTimersCount = 0 ∧
    (∀ i : Fin NUM_TIMERS,
      (startNewSequence now s).timerHighStartTimes i = 0 ∧
      (startNewSequence now s).timerOnDurations i = 0 ∧
      (startNewSequence now s).currentTimerState i = false ∧
      (startNewSequence now s).highSignalOrder i = 0 ∧
      (startNewSequence now s).ledStates i = false ∧
      (startNewSequence now s).ledLastToggleTimes i = 0 ∧
      (startNewSequence now s).ledPinLevel i = LOW) ∧
    (∀ s2 : State, startNewSequence now s2 = startNewSequence now s) ∧
    startNewSequence now (startNewSequence now s) = startNewSequence now s := by
  simp only [startNewSequence_eq]
  simp [freshRun]

/-! ## The main loop -/

/-- A poll of a freshly reset state cannot complete the run: every duration is
still zero afterwards. -/
theorem completes_freshRun (rd : Int → Bool) (t now : Nat) : completes rd t (freshRun now) = false := by
  unfold completes
  have h0 : ¬ ∀ i, (indices.foldl (monitorChannel rd t) (freshRun now)).timerOnDurations i ≠ 0 := by
    intro h
    apply h 0
    rw [(foldl_monitorChannel_channel rd t indices indices_nodup (freshRun now) 0).2.2]
    simp [freshRun]
  rw [← allTimersFinished_iff] at h0
  simp [h0]

/-- C8 (trigger guard), amended.  One iteration of `loop` is the button check,
then the capture tick if a sequence is active, then the playback step; the
button check invokes `startNewSequence` iff `sequenceIsActive` is false at the
start of the iteration and both button samples read LOW.  With
`sequenceIsActive = true` the button is ignored: the iteration is the capture
tick followed by the playback step, `sequenceStartTime`, `highTimersCount` and
the capture arrays get the values the capture tick gives them, and the playback
variables are left alone unless that capture tick completes the run.  With
`sequenceIsActive = false` (in particular after a completed run) a pressed
button starts a new run: the iteration is the reset followed by a capture tick,
and the run is active afterwards with `sequenceStartTime` the reset's tick. -/
theorem trigger_guard (inp : LoopInput) (s : State) :
    loop inp s
      = loopBlink inp (loopMonitor inp
          (if s.sequenceIsActive = false ∧ inp.button1 = LOW ∧ inp.button2 = LOW then
            startNewSequence inp.tStart s
          else s)) ∧
    (s.sequenceIsActive = true →
      loop inp s = loopBlink inp (monitorTimerPins inp.pins inp.tMonitor s) ∧
      (loop inp s).sequenceStartTime = s.sequenceStartTime ∧
      (loop inp s).sequenceIsActive = (monitorTimerPins inp.pins inp.tMonitor s).sequenceIsActive ∧
      (loop inp s).highTimersCount = (monitorTimerPins inp.pins inp.tMonitor s).highTimersCount ∧
      (loop inp s).timerHighStartTimes
        = (monitorTimerPins inp.pins inp.tMonitor s).timerHighStartTimes ∧
      (loop inp s).timerOnDurations = (monitorTimerPins inp.pins inp.tMonitor s).timerOnDurations ∧
      (loop inp s).currentTimerState
        = (monitorTimerPins inp.pins inp.tMonitor s).currentTimerState ∧
      (loop inp s).highSignalOrder = (monitorTimerPins inp.pins inp.tMonitor s).highSignalOrder ∧
      ((monitorTimerPins inp.pins inp.tMonitor s).sequenceIsActive = true →
        loop inp s = monitorTimerPins inp.pins inp.tMonitor s ∧
        (loop inp s).ledStates = s.ledStates ∧
        (loop inp s).ledLastToggleTimes = s.ledLastToggleTimes)) ∧
    (s.sequenceIsActive = false → inp.button1 = LOW → inp.button2 = LOW →
      loop inp s = monitorTimerPins inp.pins inp.tMonitor (startNewSequence inp.tStart s) ∧
      (loop inp s).sequenceIsActive = true ∧
      (loop inp s).sequenceStartTime = inp.tStart) := by
  refine ⟨?_, ?_, ?_⟩
  · unfold loop loopTrigger
    cases s.sequenceIsActive <;> cases inp.button1 <;> cases inp.button2 <;> simp
  · intro hact
    have hloop : loop inp s = loopBlink inp (monitorTimerPins inp.pins inp.tMonitor s) := by
      unfold loop loopTrigger loopMonitor
      simp [hact]
    have hb : ∀ st : State,
        (loopBlink inp st).sequenceIsActive = st.sequenceIsActive ∧
        (loopBlink inp st).sequenceStartTime = st.sequenceStartTime ∧
        (loopBlink inp st).timerHighStartTimes = st.timerHighStartTimes ∧
        (loopBlink inp st).timerOnDurations = st.timerOnDurations ∧
        (loopBlink inp st).currentTimerState = st.currentTimerState ∧
        (loopBlink inp st).highSignalOrder = st.highSignalOrder ∧
        (loopBlink inp st).highTimersCount = st.highTimersCount := by
      intro st
      unfold loopBlink
      split
      · exact foldl_blinkSlot_frame inp.tBlink indices st
      · simp
    obtain ⟨b1, b2, b3, b4, b5, b6, b7⟩ := hb (monitorTimerPins inp.pins inp.tMonitor s)
    refine ⟨hloop, ?_, ?_, ?_, ?_, ?_, ?_, ?_, ?_⟩
    · rw [hloop, b2]
      exact (monitorTimerPins_frame _ _ _).1
    · rw [hloop, b1]
    · rw [hloop, b7]
    · rw [hloop, b3]
    · rw [hloop, b4]
    · rw [hloop, b5]
    · rw [hloop, b6]
    · intro hstill
      have h2 : loop inp s = monitorTimerPins inp.pins inp.tMonitor s := by
        rw [hloop]
        unfold loopBlink
        simp [hstill]
      rw [h2]
      exact ⟨rfl, (monitorTimerPins_frame _ _ _).2.2.1, (monitorTimerPins_frame _ _ _).2.1⟩
  · intro hidle h1 h2
    have hact : (monitorTimerPins inp.pins inp.tMonitor (startNewSequence inp.tStart s)).sequenceIsActive
        = true := by
      rw [monitorTimerPins_sequenceIsActive, startNewSequence_eq, completes_freshRun]
      rfl
    have hloop : loop inp s
        = monitorTimerPins inp.pins inp.tMonitor (startNewSequence inp.tStart s) := by
      have hs : (startNewSequence inp.tStart s).sequenceIsActive = true := by
        rw [startNewSequence_eq]
        rfl
      unfold loop loopTrigger loopMonitor loopBlink
      simp [hidle, h1, h2, hs, hact]
    refine ⟨hloop, by rw [hloop]; exact hact, ?_⟩
    rw [hloop, (monitorTimerPins_frame _ _ _).1, startNewSequence_eq]
    rfl

/-- C8 as stated fails on the iteration that completes a run.  After one poll
with every channel HIGH at tick 1 the run is active with all seven channels
logged; an iteration with the button pressed whose capture tick samples every
channel LOW at tick 5 completes the run, and the playback step of the same
iteration, at tick 9, toggles the LEDs: `ledStates[0]` and
`ledLastToggleTimes[0]` are changed, and not by the capture tick. -/
theorem trigger_guard_counterexample :
    (runMonitor (startNewSequence 0 boot) [⟨fun _ => true, 1⟩]).sequenceIsActive = true ∧
    (loop ⟨LOW, LOW, fun _ => false, 5, 5, 9⟩
      (runMonitor (startNewSequence 0 boot) [⟨fun _ => true, 1⟩])).ledStates 0 = true ∧
    (monitorTimerPins (fun _ => false) 5
      (runMonitor (startNewSequence 0 boot) [⟨fun _ => true, 1⟩])).ledStates 0 = false ∧
    (loop ⟨LOW, LOW, fun _ => false, 5, 5, 9⟩
      (runMonitor (startNewSequence 0 boot) [⟨fun _ => true, 1⟩])).ledLastToggleTimes 0 = 9 ∧
    (monitorTimerPins (fun _ => false) 5
      (runMonitor (startNewSequence 0 boot) [⟨fun _ => true, 1⟩])).ledLastToggleTimes 0 = 0 := by
  decide

/-- C8 (amended) at concrete inputs: a pressed button in the playback state
reached by a completed run starts a new run at tick 20, and a pressed button
during the run that follows leaves the start time alone. -/
theorem trigger_guard_witness :
    (runMonitor (startNewSequence 0 boot)
      [⟨fun _ => true, 1⟩, ⟨fun _ => false, 5⟩]).sequenceIsActive = false ∧
    (loop ⟨LOW, LOW, fun p => p == 24, 20, 21, 22⟩
      (runMonitor (startNewSequence 0 boot)
        [⟨fun _ => true, 1⟩, ⟨fun _ => false, 5⟩])).sequenceIsActive = true ∧
    (loop ⟨LOW, LOW, fun p => p == 24, 20, 21, 22⟩
      (runMonitor (startNewSequence 0 boot)
        [⟨fun _ => true, 1⟩, ⟨fun _ => false, 5⟩])).sequenceStartTime = 20 ∧
    (loop ⟨LOW, LOW, fun _ => false, 30, 31, 32⟩
      (runMonitor (startNewSequence 20 boot) [⟨fun p => p == 24, 21⟩])).sequenceStartTime = 20 :=
  ⟨by decide,
    ((trigger_guard ⟨LOW, LOW, fun p => p == 24, 20, 21, 22⟩ _).2.2 (by decide) rfl rfl).2.1,
    ((trigger_guard ⟨LOW, LOW, fun p => p == 24, 20, 21, 22⟩ _).2.2 (by decide) rfl rfl).2.2,
    ((trigger_guard ⟨LOW, LOW, fun _ => false, 30, 31, 32⟩
      (runMonitor (startNewSequence 20 boot) [⟨fun p => p == 24, 21⟩])).2.1 (by decide)).2.1⟩

/-! ## Repeated edges -/

theorem two_le_count_of_getElem (l : List (Fin NUM_TIMERS)) (c : Fin NUM_TIMERS) (a b : Nat)
    (hab : a < b) (ha : l[a]? = some c) (hb : l[b]? = some c) : 2 ≤ l.count c := by
  have h1 : c ∈ l.take b := List.getElem?_mem (by rw [List.getElem?_take_of_lt hab]; exact ha)
  have h2 : c ∈ l.drop b := List.getElem?_mem (by
    rw [List.getElem?_drop, Nat.add_zero]
    exact hb : (l.drop b)[0]? = some c)
  have e : l.count c = (l.take b).count c + (l.drop b).count c := by
    rw [← List.count_append, List.take_append_drop]
  have := List.count_pos_iff.2 h1
  have := List.count_pos_iff.2 h2
  omega

/-- A channel that is stored LOW and has no rising edge in the polls that
follow keeps its duration. -/
theorem runMonitor_no_rise (i : Fin NUM_TIMERS) (calls : List Sample) (s : State)
    (hlow : s.currentTimerState i = false) (hno : i ∉ riseLog s.currentTimerState calls) :
    (runMonitor s calls).timerOnDurations i = s.timerOnDurations i := by
  refine (runMonitor_steady i calls s ?_).2.2
  induction calls generalizing s with
  | nil => simp
  | cons c cs ih =>
    rw [riseLog, List.mem_append, not_or] at hno
    have hc : c.rd (TIMER_PINS i) = false := by
      by_contra hne
      apply hno.1
      unfold risingChannels
      rw [List.mem_filter]
      exact ⟨mem_indices i, by simp [hlow, hne]⟩
    have h2 := ih (monitorTimerPins c.rd c.now s)
      (by rw [monitorTimerPins_currentTimerState]; exact hc)
      (by rw [monitorTimerPins_currentTimerState]; exact hno.2)
    intro d hd
    rcases List.mem_cons.1 hd with rfl | hd
    · rw [hlow]
      exact hc
    · have := h2 d hd
      rw [monitorTimerPins_currentTimerState] at this
      rw [hlow, this]
      exact hc

/-- Two positions of the order log that hold the pin of a channel with at most
one rising edge are the same position. -/
theorem order_position_unique (now : Nat) (s0 : State) (calls : List Sample) (c : Fin NUM_TIMERS)
    (honce : (riseLog allLow calls).count c ≤ 1) (j1 j2 : Fin NUM_TIMERS)
    (h1 : j1.val < (runMonitor (startNewSequence now s0) calls).highTimersCount)
    (h2 : j2.val < (runMonitor (startNewSequence now s0) calls).highTimersCount)
    (e1 : (runMonitor (startNewSequence now s0) calls).highSignalOrder j1 = TIMER_PINS c)
    (e2 : (runMonitor (startNewSequence now s0) calls).highSignalOrder j2 = TIMER_PINS c) :
    j1 = j2 := by
  obtain ⟨⟨hc, ho⟩, -⟩ := run_log now s0 calls
  rw [hc] at h1 h2
  have hl1 : j1.val < (riseLog allLow calls).length := lt_of_lt_of_le h1 (min_le_right _ _)
  have hl2 : j2.val < (riseLog allLow calls).length := lt_of_lt_of_le h2 (min_le_right _ _)
  have g1 : (riseLog allLow calls)[j1.val]? = some c := by
    rw [List.getElem?_eq_getElem hl1]
    have := ho j1 _ (List.getElem?_eq_getElem hl1)
    rw [e1] at this
    rw [TIMER_PINS_injective this]
  have g2 : (riseLog allLow calls)[j2.val]? = some c := by
    rw [List.getElem?_eq_getElem hl2]
    have := ho j2 _ (List.getElem?_eq_getElem hl2)
    rw [e2] at this
    rw [TIMER_PINS_injective this]
  by_contra hne
  have hv : j1.val ≠ j2.val := fun e => hne (Fin.ext e)
  rcases Nat.lt_or_gt_of_ne hv with hlt | hgt
  · have := two_le_count_of_getElem _ c _ _ hlt g1 g2
    omega
  · have := two_le_count_of_getElem _ c _ _ hgt g2 g1
    omega

/-- C9 (order uniqueness), amended.  In every state reached from
`startNewSequence` by polls with arbitrary samples, the pin of a channel that
has had at most one rising edge in the run appears at most once among the first
`highTimersCount` entries of `highSignalOrder`. -/
theorem order_uniqueness (now : Nat) (s0 : State) (calls : List Sample) (c : Fin NUM_TIMERS)
    (honce : (riseLog allLow calls).count c ≤ 1) :
    pinOccurrences (runMonitor (startNewSequence now s0) calls) (TIMER_PINS c) ≤ 1 := by
  unfold pinOccurrences
  have hnd : (indices.filter fun j =>
      decide (j.val < (runMonitor (startNewSequence now s0) calls).highTimersCount) &&
        (runMonitor (startNewSequence now s0) calls).highSignalOrder j == TIMER_PINS c).Nodup :=
    indices_nodup.filter _
  match hf : (indices.filter fun j =>
      decide (j.val < (runMonitor (startNewSequence now s0) calls).highTimersCount) &&
        (runMonitor (startNewSequence now s0) calls).highSignalOrder j == TIMER_PINS c) with
  | [] => rw [hf]; simp
  | [_] => rw [hf]; simp
  | a :: b :: t =>
    exfalso
    rw [hf] at hnd
    have ha : a ∈ (indices.filter fun j =>
      decide (j.val < (runMonitor (startNewSequence now s0) calls).highTimersCount) &&
        (runMonitor (startNewSequence now s0) calls).highSignalOrder j == TIMER_PINS c) := by
      rw [hf]
      simp
    have hb : b ∈ (indices.filter fun j =>
      decide (j.val < (runMonitor (startNewSequence now s0) calls).highTimersCount) &&
        (runMonitor (startNewSequence now s0) calls).highSignalOrder j == TIMER_PINS c) := by
      rw [hf]
      simp
    have pa := (List.mem_filter.1 ha).2
    have pb := (List.mem_filter.1 hb).2
    simp only [Bool.and_eq_true, decide_eq_true_eq, beq_iff_eq] at pa pb
    have hab := order_position_unique now s0 calls c honce a b pa.1 pb.1 pa.2 pb.2
    rw [hab] at hnd
    simp at hnd

/-- C9 as stated fails when a channel fires twice: channel 0 rises at tick 1,
falls at tick 2 and rises again at tick 3; its pin 22 is then stored in both of
the first two entries of `highSignalOrder`. -/
theorem order_uniqueness_counterexample :
    (runMonitor (startNewSequence 0 boot)
      [⟨fun p => p == 22, 1⟩, ⟨fun _ => false, 2⟩, ⟨fun p => p == 22, 3⟩]).highTimersCount = 2 ∧
    (runMonitor (startNewSequence 0 boot)
      [⟨fun p => p == 22, 1⟩, ⟨fun _ => false, 2⟩, ⟨fun p => p == 22, 3⟩]).highSignalOrder 0
      = TIMER_PINS 0 ∧
    (runMonitor (startNewSequence 0 boot)
      [⟨fun p => p == 22, 1⟩, ⟨fun _ => false, 2⟩, ⟨fun p => p == 22, 3⟩]).highSignalOrder 1
      = TIMER_PINS 0 ∧
    pinOccurrences (runMonitor (startNewSequence 0 boot)
      [⟨fun p => p == 22, 1⟩, ⟨fun _ => false, 2⟩, ⟨fun p => p == 22, 3⟩]) (TIMER_PINS 0) = 2 := by
  decide

/-- C9 (amended) at a concrete run: channels 3 and 0 rise once each, channel 3
falls and channel 5 rises; pin 25 of channel 3 occurs once in the log. -/
theorem order_uniqueness_witness :
    (riseLog allLow
      [⟨fun p => p == 25, 1⟩, ⟨fun p => p == 25 || p == 22, 2⟩, ⟨fun p => p == 27, 3⟩]).count 3
      ≤ 1 ∧
    pinOccurrences (runMonitor (startNewSequence 0 boot)
      [⟨fun p => p == 25, 1⟩, ⟨fun p => p == 25 || p == 22, 2⟩, ⟨fun p => p == 27, 3⟩])
      (TIMER_PINS 3) ≤ 1 :=
  ⟨by decide,
    order_uniqueness 0 boot
      [⟨fun p => p == 25, 1⟩, ⟨fun p => p == 25 || p == 22, 2⟩, ⟨fun p => p == 27, 3⟩] 3
      (by decide)⟩

/-- C10 (duration set once), amended.  In a run started by `startNewSequence`,
if channel `i` has at most one rising edge in the whole run, then once
`timerOnDurations[i]` is non-zero no later poll of the run changes it. -/
theorem duration_set_once (now : Nat) (s0 : State) (pre post : List Sample) (i : Fin NUM_TIMERS)
    (honce : (riseLog allLow (pre ++ post)).count i ≤ 1)
    (hset : (runMonitor (startNewSequence now s0) pre).timerOnDurations i ≠ 0) :
    (runMonitor (startNewSequence now s0) (pre ++ post)).timerOnDurations i
      = (runMonitor (startNewSequence now s0) pre).timerOnDurations i := by
  obtain ⟨-, hs⟩ := run_log now s0 pre
  have hseen := hs i
  rw [if_neg hset] at hseen
  have happ : riseLog allLow (pre ++ post)
      = riseLog allLow pre
        ++ riseLog (runMonitor (startNewSequence now s0) pre).currentTimerState post := by
    have := riseLog_append (startNewSequence now s0) pre post
    rw [startNewSequence_eq] at this ⊢
    exact this
  rw [happ, List.count_append] at honce
  have hlow : (runMonitor (startNewSequence now s0) pre).currentTimerState i = false := by
    by_contra hne
    rw [if_pos (by simpa using hne)] at hseen
    omega
  have hno : i ∉ riseLog (runMonitor (startNewSequence now s0) pre).currentTimerState post := by
    intro hmem
    have := List.count_pos_iff.2 hmem
    omega
  rw [runMonitor_append]
  exact runMonitor_no_rise i post _ hlow hno

/-- C10 as stated fails when a channel fires twice while the run is still
active: channel 0 is on from tick 1 to tick 5 (duration 4), then again from tick
10 to tick 12, and the second falling edge overwrites the duration with 2. -/
theorem duration_set_once_counterexample :
    (runMonitor (startNewSequence 0 boot)
      [⟨fun p => p == 22, 1⟩, ⟨fun _ => false, 5⟩]).timerOnDurations 0 = 4 ∧
    (runMonitor (startNewSequence 0 boot)
      [⟨fun p => p == 22, 1⟩, ⟨fun _ => false, 5⟩, ⟨fun p => p == 22, 10⟩]).sequenceIsActive
      = true ∧
    (runMonitor (startNewSequence 0 boot)
      [⟨fun p => p == 22, 1⟩, ⟨fun _ => false, 5⟩, ⟨fun p => p == 22, 10⟩,
        ⟨fun _ => false, 12⟩]).sequenceIsActive = true ∧
    (runMonitor (startNewSequence 0 boot)
      [⟨fun p => p == 22, 1⟩, ⟨fun _ => false, 5⟩, ⟨fun p => p == 22, 10⟩,
        ⟨fun _ => false, 12⟩]).timerOnDurations 0 = 2 := by
  decide

/-- C10 (amended) at a concrete run: channel 0 is on from tick 1 to tick 5 and
never again; two later polls in which channel 4 fires leave its duration 4. -/
theorem duration_set_once_witness :
    (riseLog allLow
      ([⟨fun p => p == 22, 1⟩, ⟨fun _ => false, 5⟩]
        ++ [⟨fun p => p == 26, 10⟩, ⟨fun _ => false, 12⟩])).count 0 ≤ 1 ∧
    (runMonitor (startNewSequence 0 boot)
      [⟨fun p => p == 22, 1⟩, ⟨fun _ => false, 5⟩]).timerOnDurations 0 = 4 ∧
    (runMonitor (startNewSequence 0 boot)
      ([⟨fun p => p == 22, 1⟩, ⟨fun _ => false, 5⟩]
        ++ [⟨fun p => p == 26, 10⟩, ⟨fun _ => false, 12⟩])).timerOnDurations 0
      = (runMonitor (startNewSequence 0 boot)
          [⟨fun p => p == 22, 1⟩, ⟨fun _ => false, 5⟩]).timerOnDurations 0 :=
  ⟨by decide, by decide,
    duration_set_once 0 boot [⟨fun p => p == 22, 1⟩, ⟨fun _ => false, 5⟩]
      [⟨fun p => p == 26, 10⟩, ⟨fun _ => false, 12⟩] 0 (by decide) (by decide)⟩

/-! ## Appending to the order log -/

theorem appendCount_nil (count : Nat) : appendCount count [] = count := by
  simp [appendCount]

theorem appendOrder_nil (order : Fin NUM_TIMERS → Int) (count : Nat) :
    appendOrder order count [] = order := by
  funext p
  simp [appendOrder]

theorem appendCount_append (count : Nat) (l1 l2 : List (Fin NUM_TIMERS)) :
    appendCount (appendCount count l1) l2 = appendCount count (l1 ++ l2) := by
  have h7 : NUM_TIMERS = 7 := rfl
  unfold appendCount
  rw [List.length_append]
  omega

theorem appendOrder_append (order : Fin NUM_TIMERS → Int) (count : Nat)
    (l1 l2 : List (Fin NUM_TIMERS)) :
    appendOrder (appendOrder order count l1) (appendCount count l1) l2
      = appendOrder order count (l1 ++ l2) := by
  have h7 : NUM_TIMERS = 7 := rfl
  funext p
  have hp := p.isLt
  unfold appendOrder appendCount
  by_cases h1 : p.val < count
  · have h2 : p.val < count + min l1.length (NUM_TIMERS - count) := by omega
    simp only [h1, h2, if_true]
  · by_cases h3 : p.val - count < l1.length
    · have h2 : p.val < count + min l1.length (NUM_TIMERS - count) := by omega
      simp only [h1, h2, if_true, if_false, List.getElem?_append_left h3]
    · have h2 : ¬ p.val < count + min l1.length (NUM_TIMERS - count) := by omega
      have h4 : l1.length ≤ p.val - count := by omega
      have h5 : p.val - (count + min l1.length (NUM_TIMERS - count))
          = p.val - count - l1.length := by omega
      have h6 : l1[p.val - count]? = none := List.getElem?_eq_none h4
      simp only [h1, h2, if_false, List.getElem?_append_right h4, h5, h6]

/-- The loop body for channel `i` appends that channel when it rises. -/
theorem monitorChannel_append (rd : Int → Bool) (t : Nat) (s : State) (i : Fin NUM_TIMERS) :
    (monitorChannel rd t s i).highTimersCount
        = appendCount s.highTimersCount
            (if rd (TIMER_PINS i) && !s.currentTimerState i then [i] else []) ∧
    (monitorChannel rd t s i).highSignalOrder
        = appendOrder s.highSignalOrder s.highTimersCount
            (if rd (TIMER_PINS i) && !s.currentTimerState i then [i] else []) := by
  have h7 : NUM_TIMERS = 7 := rfl
  rcases monitorChannel_order rd t s i with ⟨hr, hl, hlt, hc1, ho1⟩ | ⟨hfull, hc1, ho1⟩
  · simp only [hr, hl, Bool.not_false, Bool.and_self, if_true]
    refine ⟨by rw [hc1]; unfold appendCount; simp; omega, ?_⟩
    rw [ho1]
    funext p
    unfold appendOrder
    by_cases hp : p = ⟨s.highTimersCount, hlt⟩
    · subst hp
      simp
    · rw [Function.update_noteq hp]
      have hv : p.val ≠ s.highTimersCount := fun e => hp (Fin.ext e)
      by_cases h1 : p.val < s.highTimersCount
      · simp [h1]
      · have h2 : 1 ≤ p.val - s.highTimersCount := by omega
        have h3 : ([i] : List (Fin NUM_TIMERS))[p.val - s.highTimersCount]? = none :=
          List.getElem?_eq_none (by simpa using h2)
        simp only [h1, if_false, h3]
  · by_cases hrise : rd (TIMER_PINS i) = true ∧ s.currentTimerState i = false
    · have hge := hfull hrise
      simp only [hrise.1, hrise.2, Bool.not_false, Bool.and_self, if_true]
      refine ⟨by rw [hc1]; unfold appendCount; simp; omega, ?_⟩
      rw [ho1]
      funext p
      have hp := p.isLt
      unfold appendOrder
      have h1 : p.val < s.highTimersCount := by omega
      simp [h1]
    · have : (rd (TIMER_PINS i) && !s.currentTimerState i) = false := by
        cases hr : rd (TIMER_PINS i) <;> cases hcs : s.currentTimerState i <;> simp_all
      simp only [this, Bool.false_eq_true, if_false, appendCount_nil, appendOrder_nil]
      exact ⟨hc1, ho1⟩

/-- The capture loop over distinct indices `l` appends the channels of `l` that
rise, in the order of `l`. -/
theorem foldl_monitorChannel_append (rd : Int → Bool) (t : Nat) (l : List (Fin NUM_TIMERS))
    (hl : l.Nodup) (s : State) :
    (l.foldl (monitorChannel rd t) s).highTimersCount
        = appendCount s.highTimersCount
            (l.filter fun i => rd (TIMER_PINS i) && !s.currentTimerState i) ∧
    (l.foldl (monitorChannel rd t) s).highSignalOrder
        = appendOrder s.highSignalOrder s.highTimersCount
            (l.filter fun i => rd (TIMER_PINS i) && !s.currentTimerState i) := by
  induction l generalizing s with
  | nil => simp [appendCount_nil, appendOrder_nil]
  | cons i l ih =>
    obtain ⟨hi, hl⟩ := List.nodup_cons.1 hl
    rw [List.foldl_cons]
    obtain ⟨k1, k2⟩ := ih hl (monitorChannel rd t s i)
    obtain ⟨m1, m2⟩ := monitorChannel_append rd t s i
    have hfilter : (l.filter fun k => rd (TIMER_PINS k) && !(monitorChannel rd t s i).currentTimerState k)
        = l.filter fun k => rd (TIMER_PINS k) && !s.currentTimerState k := by
      apply List.filter_congr
      intro k hk
      have hki : k ≠ i := fun e => hi (e ▸ hk)
      rw [monitorChannel_currentTimerState, if_neg hki]
    have hcons : (List.filter (fun k => rd (TIMER_PINS k) && !s.currentTimerState k) (i :: l))
        = (if (rd (TIMER_PINS i) && !s.currentTimerState i) = true then [i] else [])
          ++ l.filter fun k => rd (TIMER_PINS k) && !s.currentTimerState k := by
      rw [List.filter_cons]
      split <;> simp
    rw [hfilter] at k1 k2
    rw [k1, k2, m1, m2, hcons, appendCount_append, appendOrder_append]
    exact ⟨rfl, rfl⟩

/-- One poll appends the channels that rise in it, in index order, to the
order log; this holds in every state. -/
theorem monitorTimerPins_append (rd : Int → Bool) (t : Nat) (s : State) :
    (monitorTimerPins rd t s).highTimersCount
        = appendCount s.highTimersCount (risingChannels s.currentTimerState rd) ∧
    (monitorTimerPins rd t s).highSignalOrder
        = appendOrder s.highSignalOrder s.highTimersCount
            (risingChannels s.currentTimerState rd) := by
  rw [monitorTimerPins_eq]
  exact foldl_monitorChannel_append rd t indices indices_nodup s

/-! ## Counting toggles -/

theorem sub32_eq (a b : Nat) (hba : b ≤ a) (h : a - b < U32) : sub32 a b = a - b := by
  have hU : U32 = 4294967296 := rfl
  unfold sub32
  rw [hU] at h ⊢
  omega

theorem sub32_self (a : Nat) : sub32 a a = 0 := by
  have hU : U32 = 4294967296 := rfl
  unfold sub32
  rw [hU]
  omega

theorem runBlink_append (s : State) (a b : List Nat) :
    runBlink s (a ++ b) = runBlink (runBlink s a) b := by
  simp [runBlink, List.foldl_append]

theorem runBlink_blinkDuration (s : State) (ticks : List Nat) (j : Fin NUM_TIMERS) :
    blinkDuration (runBlink s ticks) j = blinkDuration s j := by
  induction ticks generalizing s with
  | nil => rfl
  | cons t ts ih =>
    have h := ih (blinkLedsAsynchronously t s)
    rw [blinkLedsAsynchronously_blinkDuration] at h
    exact h

theorem toggleCount_append (i : Fin NUM_TIMERS) (s : State) (a b : List Nat) :
    toggleCount i s (a ++ b) = toggleCount i s a + toggleCount i (runBlink s a) b := by
  induction a generalizing s with
  | nil => simp [toggleCount, runBlink]
  | cons t ts ih =>
    rw [List.cons_append, toggleCount, toggleCount, ih (blinkLedsAsynchronously t s),
      Nat.add_assoc]
    rfl

/-- One call flips `ledStates[i]` exactly when the slot passes the test. -/
theorem toggleCount_single (i : Fin NUM_TIMERS) (s : State) (t : Nat) :
    toggleCount i s [t] = if Toggles t s i then 1 else 0 := by
  rw [toggleCount, toggleCount, (blinkLedsAsynchronously_slot t s i).1]
  by_cases hT : Toggles t s i
  · cases hs : s.ledStates i <;> simp [hT, hs]
  · simp [hT]

theorem succ_div_cases (T d : Nat) (hd : 1 ≤ d) :
    (T % d + 1 = d ∧ (T + 1) / d = T / d + 1 ∧ (T / d + 1) * d = T + 1) ∨
    (T % d + 1 < d ∧ (T + 1) / d = T / d) := by
  have hT := Nat.div_add_mod T d
  have hr := Nat.mod_lt T (show 0 < d from hd)
  by_cases h : T % d + 1 = d
  · left
    have e : T + 1 = d * (T / d + 1) := by
      rw [Nat.mul_add, Nat.mul_one]
      omega
    refine ⟨h, ?_, ?_⟩
    · rw [e, Nat.mul_div_cancel_left _ (show 0 < d from hd)]
    · rw [Nat.mul_comm]
      exact e.symm
  · right
    refine ⟨by omega, ?_⟩
    have e : T + 1 = d * (T / d) + (T % d + 1) := by omega
    rw [e, Nat.mul_add_div (show 0 < d from hd),
      Nat.div_eq_of_lt (show T % d + 1 < d by omega), Nat.add_zero]

/-- C11 (playback toggle count).  A slot whose looked-up duration is `d ≥ 1`
(an `unsigned long`, so below `2^32`) and whose `ledLastToggleTimes` is 0,
polled by `blinkLedsAsynchronously` once at each tick `1, 2, ..., T`, toggles
exactly `floor(T / d)` times, in any state and whatever the other slots do; its
last toggle is then at the largest multiple of `d` up to `T`.  With durations
100 and 250 and `T = 1000` that is 10 and 4 toggles. -/
theorem playback_toggle_count (s : State) (i : Fin NUM_TIMERS) (d : Nat) (hd : 1 ≤ d)
    (hd32 : d < U32) (hdur : blinkDuration s i = d) (hlast : s.ledLastToggleTimes i = 0)
    (T : Nat) :
    toggleCount i s (List.range' 1 T) = T / d ∧
    (runBlink s (List.range' 1 T)).ledLastToggleTimes i = T / d * d := by
  induction T with
  | zero => simp [runBlink, toggleCount, hlast]
  | succ T ih =>
    obtain ⟨hc, hl⟩ := ih
    have hD : blinkDuration (runBlink s (List.range' 1 T)) i = d := by
      rw [runBlink_blinkDuration, hdur]
    have hle : T / d * d ≤ T := Nat.div_mul_le_self T d
    have hmod : T - T / d * d = T % d := by
      have := Nat.div_add_mod T d
      rw [Nat.mul_comm] at this
      omega
    have hr := Nat.mod_lt T (show 0 < d from hd)
    have hsub : sub32 (1 + T) ((runBlink s (List.range' 1 T)).ledLastToggleTimes i)
        = T % d + 1 := by
      rw [hl, sub32_eq _ _ (by omega) (by omega)]
      omega
    have hT : Toggles (1 + T) (runBlink s (List.range' 1 T)) i ↔ T % d + 1 = d := by
      unfold Toggles
      rw [hD, hsub]
      omega
    rw [List.range'_1_concat, runBlink_append, toggleCount_append, hc, toggleCount_single]
    have hstep := (blinkLedsAsynchronously_slot (1 + T) (runBlink s (List.range' 1 T)) i).2.1
    have hrun : runBlink (runBlink s (List.range' 1 T)) [1 + T]
        = blinkLedsAsynchronously (1 + T) (runBlink s (List.range' 1 T)) := rfl
    rw [hrun, hstep]
    rcases succ_div_cases T d hd with ⟨h1, h2, h3⟩ | ⟨h1, h2⟩
    · rw [if_pos (hT.2 h1), if_pos (hT.2 h1), h2, h3]
      exact ⟨rfl, by omega⟩
    · have hne : ¬ Toggles (1 + T) (runBlink s (List.range' 1 T)) i := fun h => by
        have := hT.1 h
        omega
      rw [if_neg hne, if_neg hne, h2, hl]
      exact ⟨rfl, rfl⟩

/-- C11 at the state of the claim: slot 0 has duration 100, slot 1 has
duration 250, both were last toggled at 0; polled at ticks 1..1000 slot 0
toggles 10 times and slot 1 toggles 4 times. -/
theorem playback_toggle_count_witness :
    blinkDuration examplePlayback 0 = 100 ∧
    blinkDuration examplePlayback 1 = 250 ∧
    toggleCount 0 examplePlayback (List.range' 1 1000) = 10 ∧
    toggleCount 1 examplePlayback (List.range' 1 1000) = 4 :=
  ⟨by decide, by decide,
    (playback_toggle_count examplePlayback 0 100 (by decide) (by decide) (by decide) rfl 1000).1,
    (playback_toggle_count examplePlayback 1 250 (by decide) (by decide) (by decide) rfl 1000).1⟩

/-! ## Wraparound -/

theorem sub32_wrap (a e : Nat) (ha : a < U32) (he : e < U32) : sub32 ((a + e) % U32) a = e := by
  have hU : U32 = 4294967296 := rfl
  unfold sub32
  rw [hU] at ha he ⊢
  omega

/-- C12 (wraparound safety).  With `millis()` an unsigned 32-bit counter: if a
rising edge of channel `i` is recorded at tick `A` and, after any polls that
sample the channel HIGH, its falling edge is recorded at tick
`B = (A + e) mod 2^32` for a true elapsed time `e < 2^32`, then
`timerOnDurations[i] = e`, also when the counter wrapped in between (`B < A`).
Likewise in playback: at tick `(last + el) mod 2^32`, with
`last = ledLastToggleTimes[j]` and true elapsed time `el < 2^32`, the difference
the code compares with the duration is `el`, so the slot toggles iff its
duration is non-zero and at most `el`. -/
theorem wraparound_safety (s : State) (i : Fin NUM_TIMERS) (rdA : Int → Bool) (A : Nat)
    (mid : List Sample) (rdB : Int → Bool) (e : Nat)
    (hlow : s.currentTimerState i = false) (hrise : rdA (TIMER_PINS i) = true)
    (hmid : ∀ c ∈ mid, c.rd (TIMER_PINS i) = true) (hfall : rdB (TIMER_PINS i) = false)
    (hA : A < U32) (he : e < U32)
    (sp : State) (j : Fin NUM_TIMERS) (el : Nat) (hlast : sp.ledLastToggleTimes j < U32)
    (hel : el < U32) :
    (monitorTimerPins rdB ((A + e) % U32)
        (runMonitor (monitorTimerPins rdA A s) mid)).timerOnDurations i = e ∧
    sub32 ((sp.ledLastToggleTimes j + el) % U32) (sp.ledLastToggleTimes j) = el ∧
    (blinkLedsAsynchronously ((sp.ledLastToggleTimes j + el) % U32) sp).ledStates j
      = (if blinkDuration sp j ≠ 0 ∧ blinkDuration sp j ≤ el then !sp.ledStates j
         else sp.ledStates j) ∧
    (blinkLedsAsynchronously ((sp.ledLastToggleTimes j + el) % U32) sp).ledLastToggleTimes j
      = (if blinkDuration sp j ≠ 0 ∧ blinkDuration sp j ≤ el then
           (sp.ledLastToggleTimes j + el) % U32
         else sp.ledLastToggleTimes j) := by
  have hcur : (monitorTimerPins rdA A s).currentTimerState i = true := by
    rw [monitorTimerPins_currentTimerState]
    exact hrise
  have hths : (monitorTimerPins rdA A s).timerHighStartTimes i = A := by
    rw [monitorTimerPins_timerHighStartTimes]
    simp [hrise, hlow]
  obtain ⟨h1, h2, -⟩ := runMonitor_steady i mid (monitorTimerPins rdA A s) (fun c hc => by
    rw [hcur]
    exact hmid c hc)
  have hw := sub32_wrap (sp.ledLastToggleTimes j) el hlast hel
  obtain ⟨b1, b2, -⟩ := blinkLedsAsynchronously_slot ((sp.ledLastToggleTimes j + el) % U32) sp j
  have hT : Toggles ((sp.ledLastToggleTimes j + el) % U32) sp j
      ↔ (blinkDuration sp j ≠ 0 ∧ blinkDuration sp j ≤ el) := by
    unfold Toggles
    rw [hw]
  refine ⟨?_, hw, ?_, ?_⟩
  · rw [monitorTimerPins_timerOnDurations, h1, h2, hcur, hths]
    simp only [hfall, and_self, if_true]
    exact sub32_wrap A e hA he
  · rw [b1]
    simp only [hT]
  · rw [b2]
    simp only [hT]

/-- C12 at the wrap boundary: channel 2 rises at tick `2^32 - 6` and falls 10
ticks later, at tick 4; a slot of duration 100 last toggled at tick
`2^32 - 96` is polled 150 ticks later, at tick 54, and toggles. -/
theorem wraparound_safety_witness :
    (4294967290 + 10) % U32 = 4 ∧
    (monitorTimerPins (fun _ => false) 4
      (runMonitor (monitorTimerPins (fun p => p == 24) 4294967290 (startNewSequence 3 boot))
        [⟨fun p => p == 24 || p == 22, 4294967295⟩, ⟨fun p => p == 24, 1⟩])).timerOnDurations 2
      = 10 ∧
    (blinkLedsAsynchronously 54 { freshRun 0 with
        sequenceIsActive := false, highSignalOrder := TIMER_PINS, highTimersCount := 7,
        timerOnDurations := fun _ => 100,
        ledLastToggleTimes := fun _ => 4294967200 }).ledStates 0 = true :=
  ⟨by decide,
    (wraparound_safety (startNewSequence 3 boot) 2 (fun p => p == 24) 4294967290
      [⟨fun p => p == 24 || p == 22, 4294967295⟩, ⟨fun p => p == 24, 1⟩] (fun _ => false) 10
      (by decide) (by decide) (by decide) (by decide) (by decide) (by decide)
      { freshRun 0 with
        sequenceIsActive := false, highSignalOrder := TIMER_PINS, highTimersCount := 7,
        timerOnDurations := fun _ => 100,
        ledLastToggleTimes := fun _ => 4294967200 } 0 150 (by decide) (by decide)).1,
    (wraparound_safety (startNewSequence 3 boot) 2 (fun p => p == 24) 4294967290
      [⟨fun p => p == 24 || p == 22, 4294967295⟩, ⟨fun p => p == 24, 1⟩] (fun _ => false) 10
      (by decide) (by decide) (by decide) (by decide) (by decide) (by decide)
      { freshRun 0 with
        sequenceIsActive := false, highSignalOrder := TIMER_PINS, highTimersCount := 7,
        timerOnDurations := fun _ => 100,
        ledLastToggleTimes := fun _ => 4294967200 } 0 150 (by decide) (by decide)).2.2.1⟩

/-! ## Simultaneous rising edges -/

theorem risingChannels_sorted (prev : Fin NUM_TIMERS → Bool) (rd : Int → Bool) :
    (risingChannels prev rd).Pairwise (· < ·) :=
  (List.pairwise_lt_finRange NUM_TIMERS).filter _

theorem mem_risingChannels (prev : Fin NUM_TIMERS → Bool) (rd : Int → Bool) (i : Fin NUM_TIMERS) :
    i ∈ risingChannels prev rd ↔ rd (TIMER_PINS i) = true ∧ prev i = false := by
  unfold risingChannels
  rw [List.mem_filter]
  simp [mem_indices]

/-- The entry the append model puts at position `count + a` is the pin of the
`a`-th appended channel. -/
theorem appendOrder_at (order : Fin NUM_TIMERS → Int) (count : Nat) (l : List (Fin NUM_TIMERS))
    (a : Nat) (c : Fin NUM_TIMERS) (hc : l[a]? = some c) (p : Fin NUM_TIMERS)
    (hp : p.val = count + a) : appendOrder order count l p = TIMER_PINS c := by
  unfold appendOrder
  have h1 : ¬ p.val < count := by omega
  have h2 : p.val - count = a := by omega
  simp only [h1, if_false, h2, hc]

/-- In a list sorted by index, the entries up to and including the one at
position `b` are exactly those that are at most `l[b]`. -/
theorem sorted_filter_le_length (l : List (Fin NUM_TIMERS)) (hs : l.Pairwise (· < ·)) (b : Nat)
    (hb : b < l.length) : (l.filter fun k => decide (k ≤ l[b])).length = b + 1 := by
  have htake : (l.take (b + 1)).filter (fun k => decide (k ≤ l[b])) = l.take (b + 1) := by
    rw [List.filter_eq_self]
    intro x hx
    obtain ⟨k, hk, rfl⟩ := List.mem_take_iff_getElem.1 hx
    have hkb : k ≤ b := by omega
    rcases Nat.lt_or_eq_of_le hkb with hlt | heq
    · exact decide_eq_true (le_of_lt (List.pairwise_iff_getElem.1 hs k b (by omega) hb hlt))
    · subst heq
      exact decide_eq_true (le_refl _)
  have hdrop : (l.drop (b + 1)).filter (fun k => decide (k ≤ l[b])) = [] := by
    rw [List.filter_eq_nil_iff]
    intro x hx
    obtain ⟨k, hk, rfl⟩ := List.mem_drop_iff_getElem.1 hx
    have hlt := List.pairwise_iff_getElem.1 hs b (b + 1 + k) hb (by omega) (by omega)
    simpa using hlt
  have hsplit : l.filter (fun k => decide (k ≤ l[b]))
      = (l.take (b + 1)).filter (fun k => decide (k ≤ l[b]))
        ++ (l.drop (b + 1)).filter (fun k => decide (k ≤ l[b])) := by
    rw [← List.filter_append, List.take_append_drop]
  rw [hsplit, htake, hdrop, List.append_nil, List.length_take_of_le (by omega)]

/-- C13 (tie-break), amended.  For every state and every two channels `i < j`
that both have a rising edge detected in the same poll: if the log has room for
channel `j`'s entry (`highTimersCount` plus the number of channels with index at
most `j` that rise in that poll is at most 7; with `highTimersCount ≤ 5` that
is the case when no third channel below `j` rises with them), both are
appended, channel `i`'s pin at a lower position than channel `j`'s: ties are
ordered by channel index, lowest first. -/
theorem tie_break (s : State) (rd : Int → Bool) (t : Nat) (i j : Fin NUM_TIMERS) (hij : i < j)
    (hi : rd (TIMER_PINS i) = true) (hci : s.currentTimerState i = false)
    (hj : rd (TIMER_PINS j) = true) (hcj : s.currentTimerState j = false)
    (hroom : s.highTimersCount
      + ((risingChannels s.currentTimerState rd).filter fun k => decide (k ≤ j)).length
        ≤ NUM_TIMERS) :
    ∃ p q : Fin NUM_TIMERS,
      s.highTimersCount ≤ p.val ∧ p < q ∧ q.val < (monitorTimerPins rd t s).highTimersCount ∧
      (monitorTimerPins rd t s).highSignalOrder p = TIMER_PINS i ∧
      (monitorTimerPins rd t s).highSignalOrder q = TIMER_PINS j := by
  have h7 : NUM_TIMERS = 7 := rfl
  obtain ⟨hcount, horder⟩ := monitorTimerPins_append rd t s
  have hsorted := risingChannels_sorted s.currentTimerState rd
  obtain ⟨a, ha, ea⟩ := List.getElem_of_mem
    ((mem_risingChannels s.currentTimerState rd i).2 ⟨hi, hci⟩)
  obtain ⟨b, hb, eb⟩ := List.getElem_of_mem
    ((mem_risingChannels s.currentTimerState rd j).2 ⟨hj, hcj⟩)
  have hab : a < b := by
    by_contra hnot
    rcases Nat.lt_or_ge b a with hlt | hge
    · have := List.pairwise_iff_getElem.1 hsorted b a hb ha hlt
      rw [ea, eb] at this
      exact absurd this (not_lt_of_gt hij)
    · have hEq : a = b := by omega
      subst hEq
      rw [ea] at eb
      exact absurd eb (ne_of_lt hij)
  have hlen := sorted_filter_le_length _ hsorted b hb
  rw [eb] at hlen
  rw [hlen] at hroom
  refine ⟨⟨s.highTimersCount + a, by omega⟩, ⟨s.highTimersCount + b, by omega⟩, ?_, ?_, ?_, ?_, ?_⟩
  · simp
  · exact Fin.mk_lt_mk.2 (by omega)
  · rw [hcount]
    unfold appendCount
    simp only
    omega
  · rw [horder]
    exact appendOrder_at _ _ _ a i (by rw [List.getElem?_eq_getElem ha, ea]) _ rfl
  · rw [horder]
    exact appendOrder_at _ _ _ b j (by rw [List.getElem?_eq_getElem hb, eb]) _ rfl

/-- The room condition cannot be dropped: a rising channel `j` for whose entry
the log has no room is not appended by the poll, no position from the old count
on holds its pin afterwards. -/
theorem rising_edge_dropped (s : State) (rd : Int → Bool) (t : Nat) (j : Fin NUM_TIMERS)
    (hj : rd (TIMER_PINS j) = true) (hcj : s.currentTimerState j = false)
    (hfull : NUM_TIMERS < s.highTimersCount
      + ((risingChannels s.currentTimerState rd).filter fun k => decide (k ≤ j)).length)
    (q : Fin NUM_TIMERS) (hq : s.highTimersCount ≤ q.val) :
    (monitorTimerPins rd t s).highSignalOrder q ≠ TIMER_PINS j := by
  have h7 : NUM_TIMERS = 7 := rfl
  obtain ⟨-, horder⟩ := monitorTimerPins_append rd t s
  have hsorted := risingChannels_sorted s.currentTimerState rd
  obtain ⟨b, hb, eb⟩ := List.getElem_of_mem
    ((mem_risingChannels s.currentTimerState rd j).2 ⟨hj, hcj⟩)
  have hlen := sorted_filter_le_length _ hsorted b hb
  rw [eb] at hlen
  rw [hlen] at hfull
  have hqlt := q.isLt
  have hidx : q.val - s.highTimersCount < (risingChannels s.currentTimerState rd).length := by
    omega
  rw [horder, appendOrder_at _ _ _ (q.val - s.highTimersCount) _
    (List.getElem?_eq_getElem hidx) q (by omega)]
  intro e
  have hsame := TIMER_PINS_injective e
  have hne : q.val - s.highTimersCount < b := by omega
  have := List.pairwise_iff_getElem.1 hsorted _ b hidx hb hne
  rw [hsame, eb] at this
  exact absurd this (lt_irrefl _)

set_option maxRecDepth 20000 in
/-- C13 as stated fails when a third channel rises in the same poll.  Channels
0..4 fire one per poll (`highTimersCount = 5`), channel 0 falls, and then one
poll samples every channel HIGH: channels 0, 5 and 6 rise together.  Channel 0
takes position 5 and channel 5 position 6; channel 6's pin 28 finds the log
full and is stored nowhere, so it is not above channel 5's pin. -/
theorem tie_break_counterexample :
    (runMonitor (startNewSequence 0 boot)
      [⟨fun p => p ≤ 22, 1⟩, ⟨fun p => p ≤ 23, 2⟩, ⟨fun p => p ≤ 24, 3⟩, ⟨fun p => p ≤ 25, 4⟩,
        ⟨fun p => p ≤ 26, 5⟩, ⟨fun p => 23 ≤ p && p ≤ 26, 6⟩]).highTimersCount = 5 ∧
    (runMonitor (startNewSequence 0 boot)
      [⟨fun p => p ≤ 22, 1⟩, ⟨fun p => p ≤ 23, 2⟩, ⟨fun p => p ≤ 24, 3⟩, ⟨fun p => p ≤ 25, 4⟩,
        ⟨fun p => p ≤ 26, 5⟩, ⟨fun p => 23 ≤ p && p ≤ 26, 6⟩]).currentTimerState 5 = false ∧
    (runMonitor (startNewSequence 0 boot)
      [⟨fun p => p ≤ 22, 1⟩, ⟨fun p => p ≤ 23, 2⟩, ⟨fun p => p ≤ 24, 3⟩, ⟨fun p => p ≤ 25, 4⟩,
        ⟨fun p => p ≤ 26, 5⟩, ⟨fun p => 23 ≤ p && p ≤ 26, 6⟩]).currentTimerState 6 = false ∧
    (monitorTimerPins (fun _ => true) 7 (runMonitor (startNewSequence 0 boot)
      [⟨fun p => p ≤ 22, 1⟩, ⟨fun p => p ≤ 23, 2⟩, ⟨fun p => p ≤ 24, 3⟩, ⟨fun p => p ≤ 25, 4⟩,
        ⟨fun p => p ≤ 26, 5⟩, ⟨fun p => 23 ≤ p && p ≤ 26, 6⟩])).highSignalOrder 6
      = TIMER_PINS 5 ∧
    ∀ q : Fin NUM_TIMERS,
      (monitorTimerPins (fun _ => true) 7 (runMonitor (startNewSequence 0 boot)
        [⟨fun p => p ≤ 22, 1⟩, ⟨fun p => p ≤ 23, 2⟩, ⟨fun p => p ≤ 24, 3⟩, ⟨fun p => p ≤ 25, 4⟩,
          ⟨fun p => p ≤ 26, 5⟩, ⟨fun p => 23 ≤ p && p ≤ 26, 6⟩])).highSignalOrder q
        ≠ TIMER_PINS 6 := by
  decide

set_option maxRecDepth 20000 in
/-- C13 (amended) at the poll in which channels 0, 5 and 6 rise together with
five entries logged: the log has room for channel 5's entry (5 + 2 = 7), so
channels 0 and 5 are both appended, pin 22 at position 5 and pin 27 at
position 6. -/
theorem tie_break_witness :
    exampleFiveLogged.highTimersCount
      + ((risingChannels exampleFiveLogged.currentTimerState (fun _ => true)).filter
          fun k => decide (k ≤ 5)).length ≤ NUM_TIMERS ∧
    (monitorTimerPins (fun _ => true) 7 exampleFiveLogged).highSignalOrder 5 = TIMER_PINS 0 ∧
    (monitorTimerPins (fun _ => true) 7 exampleFiveLogged).highSignalOrder 6 = TIMER_PINS 5 ∧
    ∃ p q : Fin NUM_TIMERS,
      exampleFiveLogged.highTimersCount ≤ p.val ∧ p < q ∧
      q.val < (monitorTimerPins (fun _ => true) 7 exampleFiveLogged).highTimersCount ∧
      (monitorTimerPins (fun _ => true) 7 exampleFiveLogged).highSignalOrder p = TIMER_PINS 0 ∧
      (monitorTimerPins (fun _ => true) 7 exampleFiveLogged).highSignalOrder q = TIMER_PINS 5 :=
  ⟨by decide, by decide, by decide,
    tie_break exampleFiveLogged (fun _ => true) 7 0 5 (by decide) (by decide) (by decide)
      (by decide) (by decide) (by decide)⟩

/-! ## Invariants of the main loop -/

theorem LoopInv_boot : LoopInv boot :=
  ⟨fun _ h => absurd h (by decide), fun j h => absurd h (Nat.not_lt_zero _)⟩

theorem LoopInv_freshRun (now : Nat) : LoopInv (freshRun now) :=
  ⟨fun h => absurd h (by simp [freshRun]), fun j h => absurd h (Nat.not_lt_zero _)⟩

theorem loopTrigger_cases (inp : LoopInput) (s : State) :
    loopTrigger inp s = s ∨
      (s.sequenceIsActive = false ∧ loopTrigger inp s = freshRun inp.tStart) := by
  unfold loopTrigger
  split
  · split
    · next h _ =>
      right
      refine ⟨?_, startNewSequence_eq _ _⟩
      cases hs : s.sequenceIsActive <;> simp [hs] at h ⊢
    · exact Or.inl rfl
  · exact Or.inl rfl

theorem LoopInv_loopTrigger (inp : LoopInput) (s : State) (h : LoopInv s) :
    LoopInv (loopTrigger inp s) := by
  rcases loopTrigger_cases inp s with e | ⟨-, e⟩
  · rw [e]
    exact h
  · rw [e]
    exact LoopInv_freshRun _

/-- A poll made while the sequence is active keeps the loop invariant: it can
only turn the flag off through the completion test, and it appends timer pins
only. -/
theorem LoopInv_monitorTimerPins (rd : Int → Bool) (t : Nat) (s : State) (h : LoopInv s)
    (hact : s.sequenceIsActive = true) : LoopInv (monitorTimerPins rd t s) := by
  have h7 : NUM_TIMERS = 7 := rfl
  constructor
  · intro hoff _
    rw [monitorTimerPins_sequenceIsActive, hact, Bool.true_and] at hoff
    have hcomp : completes rd t s = true := by simpa using hoff
    unfold completes at hcomp
    rw [Bool.and_eq_true, allTimersFinished_iff] at hcomp
    have e : (monitorTimerPins rd t s).timerOnDurations
        = (indices.foldl (monitorChannel rd t) s).timerOnDurations := by
      rw [monitorTimerPins_eq]
    rw [e]
    exact hcomp.2
  · intro j hj
    obtain ⟨hcount, horder⟩ := monitorTimerPins_append rd t s
    rw [hcount] at hj
    rw [horder]
    unfold appendOrder
    by_cases h1 : j.val < s.highTimersCount
    · simp only [h1, if_true]
      exact h.2 j h1
    · have hlt : j.val - s.highTimersCount < (risingChannels s.currentTimerState rd).length := by
        unfold appendCount at hj
        omega
      simp only [h1, if_false, List.getElem?_eq_getElem hlt]
      exact ⟨_, rfl⟩

theorem LoopInv_loopMonitor (inp : LoopInput) (s : State) (h : LoopInv s) :
    LoopInv (loopMonitor inp s) := by
  unfold loopMonitor
  split
  · next hact => exact LoopInv_monitorTimerPins _ _ s h hact
  · exact h

theorem loopBlink_frame (inp : LoopInput) (s : State) :
    (loopBlink inp s).sequenceIsActive = s.sequenceIsActive ∧
    (loopBlink inp s).sequenceStartTime = s.sequenceStartTime ∧
    (loopBlink inp s).timerHighStartTimes = s.timerHighStartTimes ∧
    (loopBlink inp s).timerOnDurations = s.timerOnDurations ∧
    (loopBlink inp s).currentTimerState = s.currentTimerState ∧
    (loopBlink inp s).highSignalOrder = s.highSignalOrder ∧
    (loopBlink inp s).highTimersCount = s.highTimersCount := by
  unfold loopBlink
  split
  · exact foldl_blinkSlot_frame inp.tBlink indices s
  · simp

theorem LoopInv_loopBlink (inp : LoopInput) (s : State) (h : LoopInv s) :
    LoopInv (loopBlink inp s) := by
  obtain ⟨b1, -, -, b4, -, b6, b7⟩ := loopBlink_frame inp s
  unfold LoopInv
  rw [b1, b4, b6, b7]
  exact h

theorem LoopInv_loop (inp : LoopInput) (s : State) (h : LoopInv s) : LoopInv (loop inp s) :=
  LoopInv_loopBlink inp _ (LoopInv_loopMonitor inp _ (LoopInv_loopTrigger inp s h))

theorem runLoop_append (s : State) (a b : List LoopInput) :
    runLoop s (a ++ b) = runLoop (runLoop s a) b := by
  simp [runLoop, List.foldl_append]

theorem LoopInv_runLoop (inputs : List LoopInput) (s : State) (h : LoopInv s) :
    LoopInv (runLoop s inputs) := by
  induction inputs generalizing s with
  | nil => exact h
  | cons inp rest ih => exact ih (loop inp s) (LoopInv_loop inp s h)

theorem find_pin (c : Fin NUM_TIMERS) :
    indices.find? (fun j => TIMER_PINS j == TIMER_PINS c) = some c := by
  fin_cases c <;> rfl

/-- C14 (playback-active invariant).  In every state reached from the boot
state by `loop` iterations with arbitrary button samples, pin samples and ticks,
and also at the point inside an iteration where `loop` tests it, the condition
for calling `blinkLedsAsynchronously` (`sequenceIsActive = false` and
`highTimersCount = 7`) holds only if every `timerOnDurations[i]` is non-zero.
In the boot state the condition is false: the playback step leaves it as it is,
and so does a whole iteration without a button press. -/
theorem playback_active_invariant (inputs : List LoopInput) :
    ((runLoop boot inputs).sequenceIsActive = false ∧
        (runLoop boot inputs).highTimersCount = NUM_TIMERS →
      ∀ i, (runLoop boot inputs).timerOnDurations i ≠ 0) ∧
    (∀ inp : LoopInput,
      (loopMonitor inp (loopTrigger inp (runLoop boot inputs))).sequenceIsActive = false ∧
        (loopMonitor inp (loopTrigger inp (runLoop boot inputs))).highTimersCount = NUM_TIMERS →
      ∀ i, (loopMonitor inp (loopTrigger inp (runLoop boot inputs))).timerOnDurations i ≠ 0) ∧
    ¬ (boot.sequenceIsActive = false ∧ boot.highTimersCount = NUM_TIMERS) ∧
    (∀ inp : LoopInput, loopBlink inp boot = boot) ∧
    (∀ inp : LoopInput, inp.button1 = HIGH ∨ inp.button2 = HIGH → loop inp boot = boot) := by
  have hinv := LoopInv_runLoop inputs boot LoopInv_boot
  refine ⟨fun h => hinv.1 h.1 h.2, fun inp h => ?_, by decide, fun inp => rfl, ?_⟩
  · exact (LoopInv_loopMonitor inp _ (LoopInv_loopTrigger inp _ hinv)).1 h.1 h.2
  · intro inp hb
    have ht : loopTrigger inp boot = boot := by
      unfold loopTrigger
      rcases hb with hb | hb <;> simp [hb]
    unfold loop
    rw [ht]
    rfl

/-- C14 on a concrete history: the button is pressed, the first poll samples
every timer HIGH at tick 1 and the next samples every timer LOW at tick 5.  The
playback condition then holds and every duration is non-zero. -/
theorem playback_active_invariant_witness :
    (runLoop boot [⟨LOW, LOW, fun _ => true, 0, 1, 2⟩,
      ⟨HIGH, HIGH, fun _ => false, 0, 5, 9⟩]).sequenceIsActive = false ∧
    (runLoop boot [⟨LOW, LOW, fun _ => true, 0, 1, 2⟩,
      ⟨HIGH, HIGH, fun _ => false, 0, 5, 9⟩]).highTimersCount = NUM_TIMERS ∧
    ∀ i, (runLoop boot [⟨LOW, LOW, fun _ => true, 0, 1, 2⟩,
      ⟨HIGH, HIGH, fun _ => false, 0, 5, 9⟩]).timerOnDurations i ≠ 0 :=
  ⟨by decide, by decide,
    (playback_active_invariant [⟨LOW, LOW, fun _ => true, 0, 1, 2⟩,
      ⟨HIGH, HIGH, fun _ => false, 0, 5, 9⟩]).1 ⟨by decide, by decide⟩⟩

/-- The lookup of a slot whose entry is a timer pin finds that channel. -/
theorem lookup_found (s : State) (i c : Fin NUM_TIMERS) (h : s.highSignalOrder i = TIMER_PINS c) :
    indices.find? (fun j => TIMER_PINS j == s.highSignalOrder i) = some c ∧
    blinkDuration s i = s.timerOnDurations c := by
  refine ⟨by rw [h]; exact find_pin c, ?_⟩
  unfold blinkDuration
  rw [h, lookupDuration_pin]

/-- In a state that satisfies the loop invariant and the playback condition,
every slot's lookup finds a channel and a non-zero duration. -/
theorem LoopInv_lookup (s : State) (h : LoopInv s) (hoff : s.sequenceIsActive = false)
    (hfull : s.highTimersCount = NUM_TIMERS) (i : Fin NUM_TIMERS) :
    ∃ c, indices.find? (fun j => TIMER_PINS j == s.highSignalOrder i) = some c ∧
      blinkDuration s i = s.timerOnDurations c ∧ blinkDuration s i ≠ 0 := by
  obtain ⟨c, hc⟩ := h.2 i (by rw [hfull]; exact i.isLt)
  obtain ⟨h1, h2⟩ := lookup_found s i c hc
  exact ⟨c, h1, h2, by rw [h2]; exact h.1 hoff hfull c⟩

/-- C20 (playback lookup always succeeds).  In every state reached from the
boot state by `loop` iterations, each of the first `highTimersCount` entries of
`highSignalOrder` is one of the seven `TIMER_PINS` values; so whenever `loop`
calls `blinkLedsAsynchronously` (the state after the button check and the
capture tick has `sequenceIsActive = false` and `highTimersCount = 7`), the pin
search finds a channel for every slot and the looked-up blink duration is
non-zero: the skip branch is never taken.  The same holds between iterations. -/
theorem playback_lookup_succeeds (inputs : List LoopInput) :
    (∀ j : Fin NUM_TIMERS, j.val < (runLoop boot inputs).highTimersCount →
      ∃ c, (runLoop boot inputs).highSignalOrder j = TIMER_PINS c) ∧
    (∀ inp : LoopInput,
      (loopMonitor inp (loopTrigger inp (runLoop boot inputs))).sequenceIsActive = false ∧
        (loopMonitor inp (loopTrigger inp (runLoop boot inputs))).highTimersCount = NUM_TIMERS →
      ∀ i : Fin NUM_TIMERS, ∃ c,
        indices.find? (fun j => TIMER_PINS j
            == (loopMonitor inp (loopTrigger inp (runLoop boot inputs))).highSignalOrder i)
          = some c ∧
        blinkDuration (loopMonitor inp (loopTrigger inp (runLoop boot inputs))) i
          = (loopMonitor inp (loopTrigger inp (runLoop boot inputs))).timerOnDurations c ∧
        blinkDuration (loopMonitor inp (loopTrigger inp (runLoop boot inputs))) i ≠ 0) ∧
    ((runLoop boot inputs).sequenceIsActive = false ∧
        (runLoop boot inputs).highTimersCount = NUM_TIMERS →
      ∀ i : Fin NUM_TIMERS, ∃ c,
        indices.find? (fun j => TIMER_PINS j == (runLoop boot inputs).highSignalOrder i)
          = some c ∧
        blinkDuration (runLoop boot inputs) i = (runLoop boot inputs).timerOnDurations c ∧
        blinkDuration (runLoop boot inputs) i ≠ 0) := by
  have hinv := LoopInv_runLoop inputs boot LoopInv_boot
  refine ⟨hinv.2, fun inp h i => ?_, fun h i => LoopInv_lookup _ hinv h.1 h.2 i⟩
  exact LoopInv_lookup _ (LoopInv_loopMonitor inp _ (LoopInv_loopTrigger inp _ hinv)) h.1 h.2 i

/-- C20 on a concrete history: after a button press, channel 3 fires first
(tick 1), the others at tick 2, channel 3 falls at tick 5 and the others at
tick 12.  In the playback state reached, slot 0 finds channel 3 and its
duration 4. -/
theorem playback_lookup_succeeds_witness :
    (runLoop boot [⟨LOW, LOW, fun p => p == 25, 0, 1, 1⟩, ⟨HIGH, HIGH, fun _ => true, 0, 2, 2⟩,
      ⟨HIGH, HIGH, fun p => p != 25, 0, 5, 5⟩,
      ⟨HIGH, HIGH, fun _ => false, 0, 12, 12⟩]).sequenceIsActive = false ∧
    (runLoop boot [⟨LOW, LOW, fun p => p == 25, 0, 1, 1⟩, ⟨HIGH, HIGH, fun _ => true, 0, 2, 2⟩,
      ⟨HIGH, HIGH, fun p => p != 25, 0, 5, 5⟩,
      ⟨HIGH, HIGH, fun _ => false, 0, 12, 12⟩]).highTimersCount = NUM_TIMERS ∧
    blinkDuration (runLoop boot [⟨LOW, LOW, fun p => p == 25, 0, 1, 1⟩,
      ⟨HIGH, HIGH, fun _ => true, 0, 2, 2⟩, ⟨HIGH, HIGH, fun p => p != 25, 0, 5, 5⟩,
      ⟨HIGH, HIGH, fun _ => false, 0, 12, 12⟩]) 0 = 4 ∧
    ∀ i : Fin NUM_TIMERS, ∃ c,
      indices.find? (fun j => TIMER_PINS j
          == (runLoop boot [⟨LOW, LOW, fun p => p == 25, 0, 1, 1⟩,
            ⟨HIGH, HIGH, fun _ => true, 0, 2, 2⟩, ⟨HIGH, HIGH, fun p => p != 25, 0, 5, 5⟩,
            ⟨HIGH, HIGH, fun _ => false, 0, 12, 12⟩]).highSignalOrder i) = some c ∧
      blinkDuration (runLoop boot [⟨LOW, LOW, fun p => p == 25, 0, 1, 1⟩,
          ⟨HIGH, HIGH, fun _ => true, 0, 2, 2⟩, ⟨HIGH, HIGH, fun p => p != 25, 0, 5, 5⟩,
          ⟨HIGH, HIGH, fun _ => false, 0, 12, 12⟩]) i
        = (runLoop boot [⟨LOW, LOW, fun p => p == 25, 0, 1, 1⟩,
          ⟨HIGH, HIGH, fun _ => true, 0, 2, 2⟩, ⟨HIGH, HIGH, fun p => p != 25, 0, 5, 5⟩,
          ⟨HIGH, HIGH, fun _ => false, 0, 12, 12⟩]).timerOnDurations c ∧
      blinkDuration (runLoop boot [⟨LOW, LOW, fun p => p == 25, 0, 1, 1⟩,
          ⟨HIGH, HIGH, fun _ => true, 0, 2, 2⟩, ⟨HIGH, HIGH, fun p => p != 25, 0, 5, 5⟩,
          ⟨HIGH, HIGH, fun _ => false, 0, 12, 12⟩]) i ≠ 0 :=
  ⟨by decide, by decide, by decide,
    (playback_lookup_succeeds [⟨LOW, LOW, fun p => p == 25, 0, 1, 1⟩,
      ⟨HIGH, HIGH, fun _ => true, 0, 2, 2⟩, ⟨HIGH, HIGH, fun p => p != 25, 0, 5, 5⟩,
      ⟨HIGH, HIGH, fun _ => false, 0, 12, 12⟩]).2.2 ⟨by decide, by decide⟩⟩

/-! ## Bounds and frame properties of the capture tick -/

theorem appendCount_ge (count : Nat) (l : List (Fin NUM_TIMERS)) :
    count ≤ appendCount count l := by
  unfold appendCount
  omega

theorem appendCount_le (count : Nat) (l : List (Fin NUM_TIMERS)) (h : count ≤ NUM_TIMERS) :
    appendCount count l ≤ NUM_TIMERS := by
  have h7 : NUM_TIMERS = 7 := rfl
  unfold appendCount
  omega

theorem appendOrder_below (order : Fin NUM_TIMERS → Int) (count : Nat)
    (l : List (Fin NUM_TIMERS)) (p : Fin NUM_TIMERS) (h : p.val < count) :
    appendOrder order count l p = order p := by
  unfold appendOrder
  simp only [h, if_true]

/-- The capture loop body never takes the count above `NUM_TIMERS`, for any
sequence of channels. -/
theorem foldl_monitorChannel_count_le (rd : Int → Bool) (t : Nat) (l : List (Fin NUM_TIMERS))
    (s : State) (h : s.highTimersCount ≤ NUM_TIMERS) :
    (l.foldl (monitorChannel rd t) s).highTimersCount ≤ NUM_TIMERS := by
  induction l generalizing s with
  | nil => exact h
  | cons i l ih =>
    rw [List.foldl_cons]
    apply ih
    rw [(monitorChannel_append rd t s i).1]
    exact appendCount_le _ _ h

theorem runMonitor_count_mono (calls : List Sample) (s : State) :
    s.highTimersCount ≤ (runMonitor s calls).highTimersCount := by
  induction calls generalizing s with
  | nil => exact le_refl _
  | cons c cs ih =>
    rw [runMonitor_cons]
    refine le_trans ?_ (ih _)
    rw [(monitorTimerPins_append c.rd c.now s).1]
    exact appendCount_ge _ _

/-- C15 (bounded, append-only log).  In every state `s` reached from
`startNewSequence` by polls, `highTimersCount ≤ 7`, and it stays at most 7
after every iteration of the capture loop of a further poll.  One iteration of
that loop either leaves `highSignalOrder` and `highTimersCount` alone or writes
`highSignalOrder[highTimersCount]` with `highTimersCount < 7` and increments
the count, so the write is in bounds (all other array accesses use the loop
index, which ranges over `0..6`).  The count never decreases during a run, and
a poll never changes an entry below the count it had before the poll. -/
theorem bounded_append_only (now : Nat) (s0 : State) (calls later : List Sample)
    (rd : Int → Bool) (t : Nat) :
    (runMonitor (startNewSequence now s0) calls).highTimersCount ≤ NUM_TIMERS ∧
    (∀ l : List (Fin NUM_TIMERS),
      (l.foldl (monitorChannel rd t)
        (runMonitor (startNewSequence now s0) calls)).highTimersCount ≤ NUM_TIMERS) ∧
    (∀ (st : State) (i : Fin NUM_TIMERS),
      ((monitorChannel rd t st i).highSignalOrder = st.highSignalOrder ∧
        (monitorChannel rd t st i).highTimersCount = st.highTimersCount) ∨
      ∃ h : st.highTimersCount < NUM_TIMERS,
        (monitorChannel rd t st i).highSignalOrder
          = Function.update st.highSignalOrder ⟨st.highTimersCount, h⟩ (TIMER_PINS i) ∧
        (monitorChannel rd t st i).highTimersCount = st.highTimersCount + 1) ∧
    (runMonitor (startNewSequence now s0) calls).highTimersCount
      ≤ (runMonitor (startNewSequence now s0) (calls ++ later)).highTimersCount ∧
    ∀ k : Fin NUM_TIMERS, k.val < (runMonitor (startNewSequence now s0) calls).highTimersCount →
      (monitorTimerPins rd t (runMonitor (startNewSequence now s0) calls)).highSignalOrder k
        = (runMonitor (startNewSequence now s0) calls).highSignalOrder k := by
  have hle : (runMonitor (startNewSequence now s0) calls).highTimersCount ≤ NUM_TIMERS := by
    rw [(run_log now s0 calls).1.1]
    exact min_le_left _ _
  refine ⟨hle, fun l => foldl_monitorChannel_count_le rd t l _ hle, fun st i => ?_, ?_, ?_⟩
  · rcases monitorChannel_order rd t st i with ⟨-, -, hlt, hc1, ho1⟩ | ⟨-, hc1, ho1⟩
    · exact Or.inr ⟨hlt, ho1, hc1⟩
    · exact Or.inl ⟨ho1, hc1⟩
  · rw [runMonitor_append]
    exact runMonitor_count_mono later _
  · intro k hk
    rw [(monitorTimerPins_append rd t _).2]
    exact appendOrder_below _ _ _ k hk

/-- C16 (steady level).  For every state, tick and channel `i`: if the level
sampled for channel `i` equals `currentTimerState[i]`, a poll leaves
`currentTimerState[i]`, `timerHighStartTimes[i]` and `timerOnDurations[i]`
unchanged and appends nothing for channel `i` (it is not among the rising
channels, and no entry the poll adds to the log is its pin).  If that holds for
all seven channels, `highSignalOrder` and `highTimersCount` are unchanged too. -/
theorem steady_level (s : State) (rd : Int → Bool) (t : Nat) (i : Fin NUM_TIMERS)
    (hsteady : rd (TIMER_PINS i) = s.currentTimerState i) :
    (monitorTimerPins rd t s).currentTimerState i = s.currentTimerState i ∧
    (monitorTimerPins rd t s).timerHighStartTimes i = s.timerHighStartTimes i ∧
    (monitorTimerPins rd t s).timerOnDurations i = s.timerOnDurations i ∧
    i ∉ risingChannels s.currentTimerState rd ∧
    (∀ p : Fin NUM_TIMERS, s.highTimersCount ≤ p.val →
      p.val < (monitorTimerPins rd t s).highTimersCount →
      (monitorTimerPins rd t s).highSignalOrder p ≠ TIMER_PINS i) ∧
    ((∀ k : Fin NUM_TIMERS, rd (TIMER_PINS k) = s.currentTimerState k) →
      (monitorTimerPins rd t s).highSignalOrder = s.highSignalOrder ∧
      (monitorTimerPins rd t s).highTimersCount = s.highTimersCount) := by
  obtain ⟨hcount, horder⟩ := monitorTimerPins_append rd t s
  have hnot : i ∉ risingChannels s.currentTimerState rd := by
    rw [mem_risingChannels, hsteady]
    cases s.currentTimerState i <;> simp
  refine ⟨?_, ?_, ?_, hnot, ?_, ?_⟩
  · rw [monitorTimerPins_currentTimerState]
    exact hsteady
  · rw [monitorTimerPins_timerHighStartTimes, hsteady]
    cases s.currentTimerState i <;> simp
  · rw [monitorTimerPins_timerOnDurations, hsteady]
    cases s.currentTimerState i <;> simp
  · intro p hp hlt
    rw [hcount] at hlt
    rw [horder]
    have hidx : p.val - s.highTimersCount < (risingChannels s.currentTimerState rd).length := by
      unfold appendCount at hlt
      omega
    rw [appendOrder_at _ _ _ (p.val - s.highTimersCount) _ (List.getElem?_eq_getElem hidx) p
      (by omega)]
    intro e
    apply hnot
    rw [← TIMER_PINS_injective e]
    exact List.getElem_mem _
  · intro hall
    have hnil : risingChannels s.currentTimerState rd = [] := by
      apply List.eq_nil_iff_forall_not_mem.2
      intro k
      rw [mem_risingChannels, hall k]
      cases s.currentTimerState k <;> simp
    rw [hcount, horder, hnil, appendCount_nil, appendOrder_nil]
    exact ⟨rfl, rfl⟩

/-- C16 at a concrete poll: channel 3 is HIGH and sampled HIGH while channels
0 and 5 rise; channel 3's state is untouched and the two appended entries are
not its pin. -/
theorem steady_level_witness :
    (fun p : Int => p == 25 || p == 22 || p == 27) (TIMER_PINS 3)
      = (monitorTimerPins (fun p => p == 25) 1 (startNewSequence 0 boot)).currentTimerState 3 ∧
    (monitorTimerPins (fun p => p == 25 || p == 22 || p == 27) 4
      (monitorTimerPins (fun p => p == 25) 1 (startNewSequence 0 boot))).timerHighStartTimes 3
      = (monitorTimerPins (fun p => p == 25) 1 (startNewSequence 0 boot)).timerHighStartTimes 3 ∧
    (monitorTimerPins (fun p => p == 25 || p == 22 || p == 27) 4
      (monitorTimerPins (fun p => p == 25) 1 (startNewSequence 0 boot))).highTimersCount = 3 :=
  ⟨by decide,
    (steady_level (monitorTimerPins (fun p => p == 25) 1 (startNewSequence 0 boot))
      (fun p => p == 25 || p == 22 || p == 27) 4 3 (by decide)).2.1,
    by decide⟩

/-! ## Stall, ownership, slot independence -/

/-- A poll after which some duration is zero does not take the completion
branch. -/
theorem completes_eq_false_of_zero (rd : Int → Bool) (t : Nat) (s : State) (i : Fin NUM_TIMERS)
    (h : (monitorTimerPins rd t s).timerOnDurations i = 0) : completes rd t s = false := by
  cases hc : completes rd t s
  · rfl
  · exfalso
    unfold completes at hc
    rw [Bool.and_eq_true, allTimersFinished_iff] at hc
    have e : (monitorTimerPins rd t s).timerOnDurations
        = (indices.foldl (monitorChannel rd t) s).timerOnDurations := by
      rw [monitorTimerPins_eq]
    rw [e] at h
    exact hc.2 i h

/-- While a channel with duration 0 is sampled LOW on every poll, the run stays
active and the duration stays 0. -/
theorem runMonitor_stalled (i : Fin NUM_TIMERS) (calls : List Sample) (s : State)
    (hact : s.sequenceIsActive = true) (hcur : s.currentTimerState i = false)
    (hdur : s.timerOnDurations i = 0) (hlow : ∀ c ∈ calls, c.rd (TIMER_PINS i) = false) :
    (runMonitor s calls).sequenceIsActive = true ∧
    (runMonitor s calls).timerOnDurations i = 0 := by
  induction calls generalizing s with
  | nil => exact ⟨hact, hdur⟩
  | cons c cs ih =>
    have hc : c.rd (TIMER_PINS i) = false := hlow c (List.mem_cons_self _ _)
    have hd : (monitorTimerPins c.rd c.now s).timerOnDurations i = 0 := by
      rw [monitorTimerPins_timerOnDurations, hcur]
      simpa using hdur
    rw [runMonitor_cons]
    apply ih
    · rw [monitorTimerPins_sequenceIsActive, hact,
        completes_eq_false_of_zero c.rd c.now s i hd]
      rfl
    · rw [monitorTimerPins_currentTimerState]
      exact hc
    · exact hd
    · exact fun d hdm => hlow d (List.mem_cons_of_mem _ hdm)

/-- C17 (zero-duration stall).  In an active run, if a poll records the falling
edge of channel `i` at a tick equal to `timerHighStartTimes[i]`, then
`timerOnDurations[i]` is 0 after the poll and `sequenceIsActive` stays true; and
after any later polls in which channel `i` is sampled LOW every time, whatever
the other channels do, `sequenceIsActive` is still true and the duration still
0: capture never completes. -/
theorem zero_duration_stall (s : State) (i : Fin NUM_TIMERS) (rd : Int → Bool) (t : Nat)
    (later : List Sample) (hact : s.sequenceIsActive = true)
    (hcur : s.currentTimerState i = true) (hfall : rd (TIMER_PINS i) = false)
    (ht : t = s.timerHighStartTimes i) (hlow : ∀ c ∈ later, c.rd (TIMER_PINS i) = false) :
    (monitorTimerPins rd t s).timerOnDurations i = 0 ∧
    (monitorTimerPins rd t s).sequenceIsActive = true ∧
    (runMonitor (monitorTimerPins rd t s) later).sequenceIsActive = true ∧
    (runMonitor (monitorTimerPins rd t s) later).timerOnDurations i = 0 := by
  have hd : (monitorTimerPins rd t s).timerOnDurations i = 0 := by
    rw [monitorTimerPins_timerOnDurations, hfall, hcur, ht]
    simp [sub32_self]
  have ha : (monitorTimerPins rd t s).sequenceIsActive = true := by
    rw [monitorTimerPins_sequenceIsActive, hact, completes_eq_false_of_zero rd t s i hd]
    rfl
  have hc : (monitorTimerPins rd t s).currentTimerState i = false := by
    rw [monitorTimerPins_currentTimerState]
    exact hfall
  exact ⟨hd, ha, runMonitor_stalled i later _ ha hc hd hlow⟩

/-- C17 at a concrete run: channel 2 rises at tick 7 and its falling edge is
polled at the same tick 7; the other six channels then fire and finish, yet
the run is still active. -/
theorem zero_duration_stall_witness :
    (monitorTimerPins (fun p => p == 24) 7 (startNewSequence 0 boot)).timerHighStartTimes 2 = 7 ∧
    (runMonitor (monitorTimerPins (fun _ => false) 7
        (monitorTimerPins (fun p => p == 24) 7 (startNewSequence 0 boot)))
      [⟨fun p => p != 24, 8⟩, ⟨fun _ => false, 20⟩]).sequenceIsActive = true ∧
    (runMonitor (monitorTimerPins (fun _ => false) 7
        (monitorTimerPins (fun p => p == 24) 7 (startNewSequence 0 boot)))
      [⟨fun p => p != 24, 8⟩, ⟨fun _ => false, 20⟩]).timerOnDurations 0 = 12 :=
  ⟨by decide,
    (zero_duration_stall (monitorTimerPins (fun p => p == 24) 7 (startNewSequence 0 boot)) 2
      (fun _ => false) 7 [⟨fun p => p != 24, 8⟩, ⟨fun _ => false, 20⟩]
      (by decide) (by decide) (by decide) (by decide) (by decide)).2.2.1,
    by decide⟩

/-- C18 (component ownership).  For every state and inputs, `monitorTimerPins`
leaves `ledStates` and `ledLastToggleTimes` (and the LED pin levels) unchanged,
and `blinkLedsAsynchronously` leaves `sequenceIsActive`, `sequenceStartTime`,
`timerHighStartTimes`, `timerOnDurations`, `currentTimerState`,
`highSignalOrder` and `highTimersCount` unchanged. -/
theorem component_ownership (s : State) (rd : Int → Bool) (t now : Nat) :
    ((monitorTimerPins rd t s).ledStates = s.ledStates ∧
      (monitorTimerPins rd t s).ledLastToggleTimes = s.ledLastToggleTimes ∧
      (monitorTimerPins rd t s).ledPinLevel = s.ledPinLevel) ∧
    ((blinkLedsAsynchronously now s).sequenceIsActive = s.sequenceIsActive ∧
      (blinkLedsAsynchronously now s).sequenceStartTime = s.sequenceStartTime ∧
      (blinkLedsAsynchronously now s).timerHighStartTimes = s.timerHighStartTimes ∧
      (blinkLedsAsynchronously now s).timerOnDurations = s.timerOnDurations ∧
      (blinkLedsAsynchronously now s).currentTimerState = s.currentTimerState ∧
      (blinkLedsAsynchronously now s).highSignalOrder = s.highSignalOrder ∧
      (blinkLedsAsynchronously now s).highTimersCount = s.highTimersCount) := by
  obtain ⟨-, h2, h3, h4⟩ := monitorTimerPins_frame rd t s
  exact ⟨⟨h3, h2, h4⟩, foldl_blinkSlot_frame now indices s⟩

/-- Two states that agree on slot `i`'s playback variables and on its looked-up
duration agree on them after one call. -/
theorem blink_slot_agree (now : Nat) (s1 s2 : State) (i : Fin NUM_TIMERS)
    (hst : s1.ledStates i = s2.ledStates i)
    (hlast : s1.ledLastToggleTimes i = s2.ledLastToggleTimes i)
    (hd : blinkDuration s1 i = blinkDuration s2 i) :
    (blinkLedsAsynchronously now s1).ledStates i = (blinkLedsAsynchronously now s2).ledStates i ∧
    (blinkLedsAsynchronously now s1).ledLastToggleTimes i
      = (blinkLedsAsynchronously now s2).ledLastToggleTimes i := by
  obtain ⟨a1, a2, -⟩ := blinkLedsAsynchronously_slot now s1 i
  obtain ⟨b1, b2, -⟩ := blinkLedsAsynchronously_slot now s2 i
  have hT : Toggles now s1 i ↔ Toggles now s2 i := Toggles_congr now s2 s1 i hd hlast
  rw [a1, a2, b1, b2, hst, hlast]
  simp only [hT]
  exact ⟨trivial, trivial⟩

theorem runBlink_slot_agree (ticks : List Nat) (s1 s2 : State) (i : Fin NUM_TIMERS)
    (hst : s1.ledStates i = s2.ledStates i)
    (hlast : s1.ledLastToggleTimes i = s2.ledLastToggleTimes i)
    (hd : blinkDuration s1 i = blinkDuration s2 i) :
    (runBlink s1 ticks).ledStates i = (runBlink s2 ticks).ledStates i ∧
    (runBlink s1 ticks).ledLastToggleTimes i = (runBlink s2 ticks).ledLastToggleTimes i := by
  induction ticks generalizing s1 s2 with
  | nil => exact ⟨hst, hlast⟩
  | cons t ts ih =>
    obtain ⟨h1, h2⟩ := blink_slot_agree t s1 s2 i hst hlast hd
    exact ih (blinkLedsAsynchronously t s1) (blinkLedsAsynchronously t s2) h1 h2
      (by rw [blinkLedsAsynchronously_blinkDuration, blinkLedsAsynchronously_blinkDuration, hd])

/-- C19 (slot independence).  For every tick `now` and every two states that
agree on `ledStates[i]`, `ledLastToggleTimes[i]`, `highSignalOrder[i]` and
`timerOnDurations`, however they differ in the other slots' `ledStates` and
`ledLastToggleTimes`, one `blinkLedsAsynchronously` call produces the same
`ledStates[i]` and `ledLastToggleTimes[i]` in both; and so does any sequence of
calls: the toggle schedule of a slot does not depend on the other slots. -/
theorem slot_independence (now : Nat) (ticks : List Nat) (s1 s2 : State) (i : Fin NUM_TIMERS)
    (hst : s1.ledStates i = s2.ledStates i)
    (hlast : s1.ledLastToggleTimes i = s2.ledLastToggleTimes i)
    (hord : s1.highSignalOrder i = s2.highSignalOrder i)
    (hdur : s1.timerOnDurations = s2.timerOnDurations) :
    (blinkLedsAsynchronously now s1).ledStates i = (blinkLedsAsynchronously now s2).ledStates i ∧
    (blinkLedsAsynchronously now s1).ledLastToggleTimes i
      = (blinkLedsAsynchronously now s2).ledLastToggleTimes i ∧
    (runBlink s1 ticks).ledStates i = (runBlink s2 ticks).ledStates i ∧
    (runBlink s1 ticks).ledLastToggleTimes i = (runBlink s2 ticks).ledLastToggleTimes i ∧
    toggleCount i s1 ticks = toggleCount i s2 ticks := by
  have hd : blinkDuration s1 i = blinkDuration s2 i := by
    unfold blinkDuration lookupDuration
    rw [hord, hdur]
  obtain ⟨h1, h2⟩ := blink_slot_agree now s1 s2 i hst hlast hd
  obtain ⟨h3, h4⟩ := runBlink_slot_agree ticks s1 s2 i hst hlast hd
  refine ⟨h1, h2, h3, h4, ?_⟩
  clear h1 h2 h3 h4
  induction ticks generalizing s1 s2 with
  | nil => rfl
  | cons t ts ih =>
    obtain ⟨g1, g2⟩ := blink_slot_agree t s1 s2 i hst hlast hd
    have hfr1 := foldl_blinkSlot_frame t indices s1
    have hfr2 := foldl_blinkSlot_frame t indices s2
    rw [toggleCount, toggleCount, g1, hst,
      ih (blinkLedsAsynchronously t s1) (blinkLedsAsynchronously t s2) g1 g2
        (by
          show (indices.foldl (blinkSlot t) s1).highSignalOrder i
            = (indices.foldl (blinkSlot t) s2).highSignalOrder i
          rw [hfr1.2.2.2.2.2.1, hfr2.2.2.2.2.2.1, hord])
        (by
          show (indices.foldl (blinkSlot t) s1).timerOnDurations
            = (indices.foldl (blinkSlot t) s2).timerOnDurations
          rw [hfr1.2.2.2.1, hfr2.2.2.2.1, hdur])
        (by rw [blinkLedsAsynchronously_blinkDuration, blinkLedsAsynchronously_blinkDuration,
          hd])]

/-- C19 at two concrete playback states that differ in slots other than slot 1:
slot 1 (duration 250) is in the same state in both after a call at tick 300 and
also after calls at ticks 100, 300 and 600. -/
theorem slot_independence_witness :
    examplePlayback.ledStates 1 = examplePlaybackOther.ledStates 1 ∧
    examplePlayback.ledLastToggleTimes 1 = examplePlaybackOther.ledLastToggleTimes 1 ∧
    examplePlayback.ledStates 0 ≠ examplePlaybackOther.ledStates 0 ∧
    (blinkLedsAsynchronously 300 examplePlayback).ledStates 1
      = (blinkLedsAsynchronously 300 examplePlaybackOther).ledStates 1 ∧
    (runBlink examplePlayback [100, 300, 600]).ledStates 1
      = (runBlink examplePlaybackOther [100, 300, 600]).ledStates 1 :=
  ⟨by decide, by decide, by decide,
    (slot_independence 300 [100, 300, 600] examplePlayback examplePlaybackOther 1
      (by decide) (by decide) (by decide) rfl).1,
    (slot_independence 300 [100, 300, 600] examplePlayback examplePlaybackOther 1
      (by decide) (by decide) (by decide) rfl).2.2.1⟩

end Sequencer
